import Mathlib

/-!
Verification of the file-converter pipeline (src/main.py).

The program is a Streamlit app: it uploads CSV/Excel files, optionally
mean-imputes missing numeric values (`df.fillna(df[numeric_cols].mean(),
inplace=True)`), selects columns (`df[selected_columns]`), and converts the
result to CSV or Excel (`df.to_csv(output, index=False)` /
`df.to_excel(output, index=False)`), deriving the download name with
`file_name.replace(original_ext, ...)`.

The shallow embedding below models a pandas dataframe as a `Table`: a row
count together with a list of named, dtype-homogeneous columns (a numeric
column holds `Option ℚ` entries, an object column holds `Option String`
entries; `none` is the NaN missing marker).  The pandas library calls the
program makes (`read_csv`, `read_excel`, `to_csv`, `mean`, `fillna`,
column indexing) are modelled as executable Lean functions on this
representation, and the program's own control flow (`handle_file_upload`,
`process_dataframe`, `convert_and_download`, the per-file loop) is
translated statement by statement.
-/

namespace FileConv

/-- A single cell value of a table: a missing marker (pandas NaN), a number
(float64 values idealized as rationals), or a text value. -/
inductive Cell where
  | missing
  | num (q : ℚ)
  | str (s : String)
deriving DecidableEq, Repr

/-- The data of one dataframe column, tagged with its dtype: a numeric
(float64/int64) column of optional rationals, or an object column of
optional strings.  `none` is NaN. -/
inductive ColData where
  | nums (xs : List (Option ℚ))
  | strs (xs : List (Option String))
deriving DecidableEq, Repr

/-- Number of entries stored in the column data. -/
def ColData.length : ColData → ℕ
  | .nums xs => xs.length
  | .strs xs => xs.length

/-- The dtype test used by `df.select_dtypes(include="number")`. -/
def ColData.isNums : ColData → Bool
  | .nums _ => true
  | .strs _ => false

/-- The cell values of a column, forgetting the dtype tag. -/
def ColData.cells : ColData → List Cell
  | .nums xs => xs.map (fun x => match x with | none => Cell.missing | some q => Cell.num q)
  | .strs xs => xs.map (fun x => match x with | none => Cell.missing | some s => Cell.str s)

/-- A named dataframe column. -/
structure Column where
  name : String
  data : ColData
deriving DecidableEq, Repr

/-- A dataframe: an index length (row count) plus the columns.  The explicit
`nrows` mirrors the pandas index, which survives even when every column is
dropped (`df[[]]` keeps the row count). -/
structure Table where
  nrows : ℕ
  cols : List Column
deriving DecidableEq, Repr

/-- The column names, in order (`df.columns`). -/
def Table.names (t : Table) : List String := t.cols.map Column.name

/-- Well-formedness of a dataframe: every column has `nrows` entries and the
column names are distinct. -/
def Table.WF (t : Table) : Prop :=
  (∀ c ∈ t.cols, c.data.length = t.nrows) ∧ t.names.Nodup

instance (t : Table) : Decidable t.WF := by
  unfold Table.WF
  infer_instance

/-! ### The Transformer: mean imputation (src/main.py lines 50-57) -/

/-- `Series.mean()` for a numeric column: the arithmetic mean of the
non-missing entries (`skipna=True`), undefined (`none`, pandas NaN) when
every entry is missing. -/
def colMean (xs : List (Option ℚ)) : Option ℚ :=
  let vs := xs.filterMap id
  if vs.isEmpty then none else some (vs.sum / (vs.length : ℚ))

/-- The effect of `df.fillna(df[numeric_cols].mean())` on one column: a
numeric column with a defined mean has each missing entry replaced by that
mean; a numeric column whose mean is NaN (all entries missing) is filled
with NaN, i.e. unchanged; an object column has no fill value and is
untouched. -/
def fillColumn (c : Column) : Column :=
  match c.data with
  | .nums xs =>
    match colMean xs with
    | some m => ⟨c.name, .nums (xs.map (fun x => some (x.getD m)))⟩
    | none => c
  | .strs _ => c

/-- `df.select_dtypes(include="number").columns` (src/main.py line 51). -/
def numericNames (t : Table) : List String :=
  (t.cols.filter (fun c => c.data.isNums)).map Column.name

/-- The fill-missing step of `process_dataframe` (src/main.py lines 51-56):
if there is at least one numeric column, `df.fillna(df[numeric_cols].mean(),
inplace=True)`; otherwise only a warning is shown and the table is
unchanged. -/
def fillMissingNumeric (t : Table) : Table :=
  if (numericNames t).isEmpty then t
  else ⟨t.nrows, t.cols.map fillColumn⟩

/-- Since line 53 passes `inplace=True`, `fillna` writes the filled table
into the dataframe object itself: after the call, the caller's dataframe
object holds this value (rather than the value it held before). -/
def dfObjectAfterFill (t : Table) : Table := fillMissingNumeric t

/-! ### The Transformer: column selection (src/main.py lines 60-65) -/

/-- Column lookup by name, as pandas label-based indexing does. -/
def findCol (t : Table) (n : String) : Option Column :=
  t.cols.find? (fun c => c.name == n)

/-- `df[selected_columns]` (src/main.py line 65): the columns named in the
selection list, in the order the list gives them.  The row count (index) is
preserved, also when the selection is empty. -/
def selectColumns (t : Table) (sel : List String) : Table :=
  ⟨t.nrows, sel.filterMap (findCol t)⟩

/-- Whether a numeric column contains a missing entry. -/
def hasMissingNum (c : Column) : Bool :=
  match c.data with
  | .nums xs => xs.contains none
  | .strs _ => false

/-- Concrete table used to exhibit the selection-order behaviour of
`df[selected_columns]`. -/
def T2cex : Table := ⟨1, [⟨"a", .nums [some 1]⟩, ⟨"b", .nums [some 2]⟩]⟩

/-- Concrete table used to exhibit the in-place update of `fillna`. -/
def T9cex : Table := ⟨3, [⟨"age", .nums [some 25, none, some 35]⟩]⟩

/-- Concrete table with an all-missing numeric column `a` and a numeric
column `b` with a defined mean. -/
def T7 : Table := ⟨2, [⟨"a", .nums [none, none]⟩, ⟨"b", .nums [some 1, none]⟩]⟩

/-- Concrete two-column table with a fillable missing numeric entry
(the spec's own scenario: `age` = 25, NaN, 35 and `name` = A, B, C). -/
def Tage : Table :=
  ⟨3, [⟨"age", .nums [some 25, none, some 35]⟩,
       ⟨"name", .strs [some "A", some "B", some "C"]⟩]⟩

/-! ### Strings: splitting and Python `str.replace` -/

/-- Python `str.split(sep)` for a one-character separator, on the character
list of the string: `"a.b.c".split(".") = ["a", "b", "c"]`, and a string
without the separator yields the one-element list holding the whole
string. -/
def splitOnChar (c : Char) : List Char → List (List Char)
  | [] => [[]]
  | x :: xs =>
    let r := splitOnChar c xs
    if x = c then [] :: r
    else (x :: r.headD []) :: r.tail

/-- `file.name.split(".")[-1].lower()` (src/main.py lines 24 and 141): the
text after the last dot — or the whole name when there is no dot —
lowercased. -/
def extOf (nm : String) : String :=
  ⟨((splitOnChar '.' nm.data).getLastD []).map Char.toLower⟩

/-- Whether `pat` is an initial segment of the second list. -/
def leadsWith : List Char → List Char → Bool
  | [], _ => true
  | _ :: _, [] => false
  | p :: ps, x :: xs => p == x && leadsWith ps xs

/-- Whether `pat` occurs as a contiguous substring. -/
def containsSub (pat : List Char) : List Char → Bool
  | [] => leadsWith pat []
  | x :: xs => leadsWith pat (x :: xs) || containsSub pat xs

/-- Left-to-right non-overlapping replacement of every occurrence of `pat`
by `rep`, with explicit fuel (one unit per character suffices); this is the
scan Python's `str.replace` performs for a non-empty pattern. -/
def replaceAllAux (pat rep : List Char) : ℕ → List Char → List Char
  | _, [] => []
  | 0, x :: xs => x :: xs
  | fuel + 1, x :: xs =>
    if leadsWith pat (x :: xs) = true then
      rep ++ replaceAllAux pat rep fuel (xs.drop (pat.length - 1))
    else x :: replaceAllAux pat rep fuel xs

/-- Replacement of every occurrence of a non-empty `pat`. -/
def replaceAllPos (pat rep s : List Char) : List Char :=
  replaceAllAux pat rep s.length s

/-- Python `s.replace(pat, rep)`: replaces EVERY non-overlapping occurrence
of `pat`, scanning left to right; an empty pattern inserts `rep` before
every character and at the end. -/
def pythonReplace (s pat rep : List Char) : List Char :=
  if pat.isEmpty then rep ++ s.flatMap (fun c => c :: rep)
  else replaceAllPos pat rep s

/-- Placeholder column value for safe list indexing in proofs. -/
def defaultColumn : Column := ⟨"", ColData.strs []⟩

/-- Modelled from the spec: "substring-replace of the extension token
(matches first occurrence)" — replacement of only the FIRST occurrence of
`pat`, the policy the spec ascribes to the filename derivation. -/
def replaceFirstPos (pat rep : List Char) : List Char → List Char
  | [] => []
  | x :: xs =>
    if leadsWith pat (x :: xs) = true then rep ++ xs.drop (pat.length - 1)
    else x :: replaceFirstPos pat rep xs

/-- The export format chosen in `convert_and_download` (src/main.py line 85). -/
inductive TargetFormat where
  | csv
  | excel
deriving DecidableEq, Repr

/-- The extension token substituted into the download name
(src/main.py lines 97 and 101). -/
def targetExtTok : TargetFormat → List Char
  | .csv => "csv".data
  | .excel => "xlsx".data

/-- `new_name = file_name.replace(original_ext, "csv" | "xlsx")`
(src/main.py lines 97 and 101). -/
def newNameFor (file_name original_ext : String) (fmt : TargetFormat) : String :=
  ⟨pythonReplace file_name.data original_ext.data (targetExtTok fmt)⟩

/-! ### Decimal rendering and parsing of numeric cells

Float64 values are exactly the rationals with a finite decimal expansion, so
numeric cells are rationals and the serialization theorems hypothesize
`q.den ∣ 10 ^ q.den` (the denominator is a product of 2s and 5s). -/

/-- The character of a decimal digit. -/
def digitChar (d : ℕ) : Char := Char.ofNat (48 + d)

/-- The digit value of a character. -/
def charVal (c : Char) : ℕ := c.toNat - 48

/-- Whether a character is a decimal digit. -/
def isDigitCh (c : Char) : Bool := 48 ≤ c.toNat && c.toNat ≤ 57

/-- Little-endian base-10 digits, with explicit fuel (`natDigits` supplies
`n` itself, which bounds the digit count). `natDigitsAux fuel 0 = []`. -/
def natDigitsAux : ℕ → ℕ → List ℕ
  | _, 0 => []
  | 0, n + 1 => [n + 1]
  | fuel + 1, n + 1 => (n + 1) % 10 :: natDigitsAux fuel ((n + 1) / 10)

/-- Little-endian base-10 digits of a natural number ([] for 0). -/
def natDigits (n : ℕ) : List ℕ := natDigitsAux n n

/-- Pad a little-endian digit list with high zeros up to length `k`. -/
def padTo (k : ℕ) (ds : List ℕ) : List ℕ := ds ++ List.replicate (k - ds.length) 0

/-- The decimal rendering of `n / 10^e` with exactly `e` digits after the
point and at least one before it, as pandas prints a float (`250, 1` ↦
"25.0"). -/
def renderDec (n e : ℕ) : List Char :=
  let ds := padTo (e + 1) (natDigits n)
  ((ds.drop e).reverse.map digitChar) ++ '.' :: ((ds.take e).reverse.map digitChar)

/-- The decimal text pandas writes for a float64 cell value `q`: sign, then
the digits of `|q.num| * (10^e / q.den)` with `e = q.den` decimal places
(an exact rendering whenever `q.den ∣ 10^e`, which holds for every float;
pandas prints the shortest form, ours may carry trailing zeros — the same
value up to numeric formatting). -/
def renderNum (q : ℚ) : List Char :=
  (if q.num < 0 then ['-'] else []) ++
    renderDec (q.num.natAbs * (10 ^ q.den / q.den)) q.den

/-- The numeric value of a big-endian digit string. -/
def parseNatCh (cs : List Char) : ℕ := cs.foldl (fun a c => 10 * a + charVal c) 0

/-- Whether every character is a decimal digit. -/
def allDigits (cs : List Char) : Bool := cs.all isDigitCh

/-- Parse an unsigned mantissa: digits with at most one decimal point; one
side of the point may be empty (".5", "5."), but not both. -/
def parseMantissa (cs : List Char) : Option ℚ :=
  match splitOnChar '.' cs with
  | [ds] => if ds ≠ [] ∧ allDigits ds then some (parseNatCh ds : ℚ) else none
  | [ds, fs] =>
    if ¬(ds = [] ∧ fs = []) ∧ allDigits ds ∧ allDigits fs then
      some ((parseNatCh ds : ℚ) + (parseNatCh fs : ℚ) / (10 ^ fs.length : ℚ))
    else none
  | _ => none

/-- Fold the exponent marker to lower case, leaving other characters. -/
def lowerE (c : Char) : Char := if c = 'E' then 'e' else c

/-- Parse a decimal exponent: an optional sign, then digits. -/
def parseExp : List Char → Option ℤ
  | [] => none
  | c :: rest =>
    if c = '-' then
      if rest ≠ [] ∧ allDigits rest then some (-(parseNatCh rest : ℤ)) else none
    else if c = '+' then
      if rest ≠ [] ∧ allDigits rest then some ((parseNatCh rest : ℤ)) else none
    else if allDigits (c :: rest) then some ((parseNatCh (c :: rest) : ℤ)) else none

/-- Scale a mantissa by a (possibly negative) power of ten. -/
def applyExp (m : ℚ) : ℤ → ℚ
  | Int.ofNat k => m * 10 ^ k
  | Int.negSucc k => m / 10 ^ (k + 1)

/-- Parse an unsigned numeric field: a mantissa, optionally followed by an
e/E exponent ("25.0", ".5", "5.", "1e5", "1.2E-3", ...). -/
def parseUnsigned (cs : List Char) : Option ℚ :=
  match splitOnChar 'e' (cs.map lowerE) with
  | [m] => parseMantissa m
  | [m, ex] =>
    match parseMantissa m, parseExp ex with
    | some q, some k => some (applyExp q k)
    | _, _ => none
  | _ => none

/-- The finite-value numeric grammar of the CSV reader's float conversion:
an optional sign, then an unsigned decimal with optional exponent.  (The
reader additionally accepts infinity/NaN words and strips edge whitespace;
those inputs are excluded by the round-trip hypotheses, see
`colCellsOk`.) -/
def parseNumField : List Char → Option ℚ
  | [] => none
  | c :: rest =>
    if c = '-' then (parseUnsigned rest).map (fun x => -x)
    else if c = '+' then parseUnsigned rest
    else parseUnsigned (c :: rest)

/-- The default NA tokens of `pd.read_csv` (its `na_values` default): a
field equal to one of these — or empty — is read as a missing value, in
numeric and object columns alike. -/
def naTokens : List (List Char) :=
  ["#N/A".data, "#N/A N/A".data, "#NA".data, "-1.#IND".data, "-1.#QNAN".data,
   "-NaN".data, "-nan".data, "1.#IND".data, "1.#QNAN".data, "<NA>".data,
   "N/A".data, "NA".data, "NULL".data, "NaN".data, "None".data,
   "n/a".data, "nan".data, "null".data]

/-- Whether the CSV reader treats a field as missing. -/
def fieldIsNA (f : List Char) : Bool := f.isEmpty || naTokens.contains f

/-- Words the float conversion accepts beyond decimal notation: signed
infinity and NaN words in any letter case.  Their float values have no
rational counterpart, so the round-trip hypotheses exclude such text. -/
def isFloatWord (f : List Char) : Bool :=
  let g := f.map Char.toLower
  g == "inf".data || g == "+inf".data || g == "-inf".data ||
  g == "infinity".data || g == "+infinity".data || g == "-infinity".data ||
  g == "nan".data || g == "+nan".data || g == "-nan".data

/-- A character the decimal renderer can emit: sign, point, or digit. -/
def numFieldChar (c : Char) : Bool := c = '-' || c = '.' || ('0' ≤ c && c ≤ '9')

/-- A space or tab. -/
def isBlankCh (c : Char) : Bool := c = ' ' || c = '\t'

/-- No leading or trailing blank, so the reader's whitespace-tolerant
numeric conversion sees the token unchanged. -/
def noEdgeWS (f : List Char) : Bool :=
  !(isBlankCh (f.headD 'x')) && !(isBlankCh (f.getLastD 'x'))

/-! ### The Exporter: CSV serialization (`df.to_csv(output, index=False)`) -/

/-- The CSV text of one numeric cell: NaN serializes as the empty field. -/
def renderCellNum : Option ℚ → List Char
  | none => []
  | some q => renderNum q

/-- The CSV text of one object cell: NaN serializes as the empty field. -/
def renderCellStr : Option String → List Char
  | none => []
  | some s => s.data

/-- The CSV field of column `c` in row `i`. -/
def colField (c : Column) (i : ℕ) : List Char :=
  match c.data with
  | .nums xs => renderCellNum (xs.getD i none)
  | .strs xs => renderCellStr (xs.getD i none)

/-- Comma/newline-free fields joined with a separator. -/
def joinSep (c : Char) : List (List Char) → List Char
  | [] => []
  | [x] => x
  | x :: y :: rest => x ++ c :: joinSep c (y :: rest)

/-- The header line: the column names, comma-separated (no index column). -/
def headerLine (t : Table) : List Char := joinSep ',' (t.cols.map (fun c => c.name.data))

/-- The data line of row `i`: the fields, comma-separated (no index column). -/
def rowLine (t : Table) (i : ℕ) : List Char := joinSep ',' (t.cols.map (fun c => colField c i))

/-- `df.to_csv(output, index=False)`: the header line then one line per row,
each terminated by a newline.  The model writes fields raw; the theorems
about it hypothesize CSV-safe content (no delimiter, quote, CR or LF in
names or text values), so the writer's QUOTE_MINIMAL quoting never
triggers. -/
def to_csv (t : Table) : List Char :=
  ((headerLine t :: (List.range t.nrows).map (rowLine t)).map (fun l => l ++ ['\n'])).join

/-- A character that serializes into a CSV field unquoted. -/
def csvSafeChar (c : Char) : Bool := c ≠ ',' && c ≠ '\n' && c ≠ '"' && c ≠ '\r'

/-- CSV-safe text. -/
def csvSafe (s : List Char) : Bool := s.all csvSafeChar

/-! ### The Loader: `pd.read_csv` and `pd.read_excel` models -/

/-- The raw content of an uploaded or exported file: decodable text, or a
spreadsheet container holding a grid of typed cells. -/
inductive RawContent where
  | text (s : List Char)
  | workbook (rows : List (List Cell))
deriving DecidableEq, Repr

/-- Dtype inference for one CSV column, as `read_csv` does: NA fields
(empty or a default NA token) are missing; a column whose remaining fields
all parse as numbers becomes float64 (an all-NA column is numeric);
otherwise it is an object column of the raw field strings, with NA fields
as missing there too. -/
def inferCol (fields : List (List Char)) : ColData :=
  if fields.all (fun f => fieldIsNA f || (parseNumField f).isSome) then
    ColData.nums (fields.map (fun f => if fieldIsNA f then none else parseNumField f))
  else
    ColData.strs (fields.map (fun f => if fieldIsNA f then none else some ⟨f⟩))

/-- The parsed columns: the j-th header field names the j-th column, whose
fields are the j-th entries of the data rows. -/
def buildCols (names : List (List Char)) (rows : List (List (List Char))) : List Column :=
  (List.range names.length).map (fun j =>
    ⟨⟨names.getD j []⟩, inferCol (rows.map (fun r => r.getD j []))⟩)

/-- Model of `pd.read_csv` on decoded text: split into lines, skip blank
lines (`skip_blank_lines=True`), first remaining line is the header, the
rest are comma-split data rows, which must all have the header's width;
empty input is `EmptyDataError`.  Per-column dtype inference and the
default NA-token list are modelled in `inferCol`.  Outside the model:
quoted fields, edge-whitespace stripping in the float conversion, and
infinity/NaN word values — the round-trip hypotheses (`csvSafe`,
`noEdgeWS`, `isFloatWord`) exclude content where these behaviours
trigger. -/
def parseCSV (s : List Char) : Except String Table :=
  match (splitOnChar '\n' s).filter (fun l => !l.isEmpty) with
  | [] => Except.error "EmptyDataError: no columns to parse"
  | header :: dataLines =>
    let names := splitOnChar ',' header
    let rows := dataLines.map (splitOnChar ',')
    if rows.all (fun r => r.length = names.length) then
      Except.ok ⟨rows.length, buildCols names rows⟩
    else Except.error "ParserError: wrong number of fields"

/-- `pd.read_csv(file)` (src/main.py line 29): decodes the byte stream as
text and parses it; binary spreadsheet content fails to decode. -/
def pd_read_csv : RawContent → Except String Table
  | .text s => parseCSV s
  | .workbook _ => Except.error "UnicodeDecodeError: binary content"

/-- The displayed name of a header cell of a spreadsheet. -/
def cellName : Cell → String
  | .str s => s
  | .num q => ⟨renderNum q⟩
  | .missing => "Unnamed: 0"

/-- Dtype inference for one spreadsheet column: all-numeric (missing
allowed) becomes float64, all-text becomes object; a mixed column is
outside the model. -/
def inferCellCol (cells : List Cell) : Option ColData :=
  if cells.all (fun x => match x with | .missing => true | .num _ => true | .str _ => false) then
    some (ColData.nums (cells.map (fun x => match x with | .num q => some q | _ => none)))
  else if cells.all (fun x => match x with | .missing => true | .str _ => true | .num _ => false) then
    some (ColData.strs (cells.map (fun x => match x with | .str s => some s | _ => none)))
  else none

/-- The parsed columns of a spreadsheet: header cells name the columns, the
remaining rows are the data. -/
def buildExcelCols (hdr : List Cell) (rows : List (List Cell)) : Option (List Column) :=
  (List.range hdr.length).mapM (fun j =>
    (inferCellCol (rows.map (fun r => r.getD j Cell.missing))).map
      (fun d => Column.mk (cellName (hdr.getD j Cell.missing)) d))

/-- `pd.read_excel(file)` (src/main.py line 31): reads the first sheet of a
spreadsheet container, first row as header; text content is not a valid
container and fails. -/
def pd_read_excel : RawContent → Except String Table
  | .text _ => Except.error "BadZipFile: not a spreadsheet"
  | .workbook [] => Except.ok ⟨0, []⟩
  | .workbook (hdr :: rows) =>
    if rows.all (fun r => r.length = hdr.length) then
      match buildExcelCols hdr rows with
      | some cs => Except.ok ⟨rows.length, cs⟩
      | none => Except.error "mixed column types"
    else Except.error "ragged sheet"

/-! ### The pipeline: loader wrapper, transformer step, exporter, loop -/

/-- An uploaded file as the loop sees it: name, raw content, and declared
size in bytes. -/
structure UploadedFile where
  name : String
  content : RawContent
  size : ℕ

/-- The result of `handle_file_upload`: a dataframe, or one of the two
`st.error` + `return None` paths (unsupported format, read exception). -/
inductive UploadResult where
  | ok (df : Table)
  | unsupported (ext : String)
  | failed (msg : String)

/-- Wrap a pandas read result the way the try/except in
`handle_file_upload` does: an exception becomes an error message. -/
def wrapLoad : Except String Table → UploadResult
  | .ok df => UploadResult.ok df
  | .error m => UploadResult.failed m

/-- `handle_file_upload` (src/main.py lines 21-40): derives the extension
from the name, reads csv with `pd.read_csv`, xlsx/xls with `pd.read_excel`,
reports any other extension as unsupported, and catches every read
exception; it never raises and always returns. -/
def handle_file_upload (f : UploadedFile) : UploadResult :=
  let ext := extOf f.name
  if ext = "csv" then wrapLoad (pd_read_csv f.content)
  else if ext = "xlsx" ∨ ext = "xls" then wrapLoad (pd_read_excel f.content)
  else UploadResult.unsupported ext

/-- The sidebar settings (src/main.py lines 16-19). -/
structure Settings where
  max_file_size : ℕ
  show_full_data : Bool

/-- The per-file widget state consumed by `process_dataframe` and
`convert_and_download`: the fill checkbox, the column multiselect (in the
user's selection order), the chart widgets (read-only), the format radio
and the download button. -/
structure Interaction where
  fillMissing : Bool
  selectedCols : List String
  showChart : Bool
  chartCols : List String
  formatChoice : TargetFormat
  downloadPressed : Bool

/-- `process_dataframe` (src/main.py lines 42-81): optional mean imputation,
then `df[selected_columns]` where the multiselect only offers existing
column names; preview and chart are read-only and do not change the
table. -/
def process_dataframe (st : Settings) (a : Interaction) (df : Table) : Table :=
  let df1 := if a.fillMissing then fillMissingNumeric df else df
  let sel := a.selectedCols.filter (fun n => df1.names.contains n)
  selectColumns df1 sel

/-- A character openpyxl accepts in a worksheet string cell (no control
characters other than tab, newline, carriage return). -/
def excelSafeChar (c : Char) : Bool :=
  32 ≤ c.toNat || c.toNat = 9 || c.toNat = 10 || c.toNat = 13

/-- The typed cell of column `c` at row `i`. -/
def cellAt (c : Column) (i : ℕ) : Cell :=
  match c.data with
  | .nums xs => match xs.getD i none with | none => Cell.missing | some q => Cell.num q
  | .strs xs => match xs.getD i none with | none => Cell.missing | some s => Cell.str s

/-- `df.to_excel(output, index=False)`: a single sheet whose first row is
the header and whose data rows hold the typed cells; the writer raises
(`IllegalCharacterError`) when a text cell contains a character openpyxl
rejects. -/
def to_excel (t : Table) : Except String (List (List Cell)) :=
  if t.cols.all (fun c =>
      match c.data with
      | .strs xs => xs.all (fun x =>
          match x with | none => true | some s => s.data.all excelSafeChar)
      | .nums _ => true) then
    Except.ok ((t.cols.map (fun c => Cell.str c.name)) ::
      (List.range t.nrows).map (fun i => t.cols.map (fun c => cellAt c i)))
  else Except.error "IllegalCharacterError"

/-- The packaged download: bytes, MIME label, derived filename. -/
structure ExportArtifact where
  payload : RawContent
  mime : String
  new_name : String

/-- `convert_and_download` (src/main.py lines 83-114): nothing happens until
the download button is pressed; then CSV export uses `to_csv` with MIME
`text/csv`, Excel export uses `to_excel` with the spreadsheet MIME, the new
name comes from `str.replace` on the original name, and any conversion
exception is caught and reported (`none` = button not pressed). -/
def convert_and_download (df : Table) (file_name : String) (original_ext : String)
    (fmt : TargetFormat) (pressed : Bool) : Option (Except String ExportArtifact) :=
  if pressed then
    some (match fmt with
      | TargetFormat.csv =>
        Except.ok ⟨RawContent.text (to_csv df), "text/csv",
          newNameFor file_name original_ext TargetFormat.csv⟩
      | TargetFormat.excel =>
        match to_excel df with
        | .ok grid => Except.ok ⟨RawContent.workbook grid,
            "application/vnd.openxmlformats-officedocument.spreadsheetml.sheet",
            newNameFor file_name original_ext TargetFormat.excel⟩
        | .error m => Except.error m)
  else none

/-- `file.size / (1024 * 1024)` (src/main.py line 126): the declared size in
MB (exact rational arithmetic in the model). -/
def sizeMB (f : UploadedFile) : ℚ := (f.size : ℚ) / (1024 * 1024)

/-- What the loop body produces for one file: skipped by the size check,
stopped by a loader error, or processed to the end (with the download
result if the button was pressed). -/
inductive Outcome where
  | skippedSize
  | loadUnsupported (ext : String)
  | loadFailed (msg : String)
  | completed (df : Table) (download : Option (Except String ExportArtifact))

/-- The stages of the per-file pipeline named by the spec's state machine. -/
inductive Stage where
  | received
  | sizeChecked
  | loaderRun
  | transformed
  | exported
deriving DecidableEq, Repr

/-- The loop body for one file (src/main.py lines 124-147): size check
first (`continue` on excess), then `handle_file_upload` (`continue` on
`None`), then `process_dataframe` and `convert_and_download`. -/
def processFile (st : Settings) (a : Interaction) (f : UploadedFile) : Outcome :=
  if sizeMB f > (st.max_file_size : ℚ) then Outcome.skippedSize
  else
    match handle_file_upload f with
    | UploadResult.unsupported e => Outcome.loadUnsupported e
    | UploadResult.failed m => Outcome.loadFailed m
    | UploadResult.ok df =>
      let processed := process_dataframe st a df
      Outcome.completed processed
        (convert_and_download processed f.name (extOf f.name) a.formatChoice a.downloadPressed)

/-- The pipeline stages a file actually enters, in order: the size check
happens before any parsing, a skipped file stops there, a loader error
stops after the loader. -/
def fileStages (st : Settings) (a : Interaction) (f : UploadedFile) : List Stage :=
  if sizeMB f > (st.max_file_size : ℚ) then [Stage.received, Stage.sizeChecked]
  else
    match handle_file_upload f with
    | UploadResult.unsupported _ => [Stage.received, Stage.sizeChecked, Stage.loaderRun]
    | UploadResult.failed _ => [Stage.received, Stage.sizeChecked, Stage.loaderRun]
    | UploadResult.ok _ =>
      [Stage.received, Stage.sizeChecked, Stage.loaderRun, Stage.transformed, Stage.exported]

/-- The `for file in files:` loop (src/main.py lines 123-147): each file is
handled by the same body, one after the other, with no state carried from
one iteration to the next (`continue` merely moves to the next file). -/
def processBatch (st : Settings) : List (Interaction × UploadedFile) → List Outcome
  | [] => []
  | (a, f) :: rest => processFile st a f :: processBatch st rest

/-- Decidable well-behavedness of a column's cells for the CSV round trip:
numeric values are finite decimals (as every float64 is); text values are
non-empty, CSV-safe, not in the numeric grammar (sign/digits/point/
exponent), not a default NA token, not an infinity/NaN word, and free of
leading/trailing blanks — i.e. nothing the reader's NA filter or float
conversion would reinterpret. -/
def colCellsOk (c : Column) : Bool :=
  match c.data with
  | .nums xs => xs.all (fun x =>
      match x with | none => true | some q => decide (q.den ∣ 10 ^ q.den))
  | .strs xs => xs.all (fun x =>
      match x with
      | none => true
      | some s => !s.data.isEmpty && csvSafe s.data && (parseNumField s.data).isNone &&
          !(naTokens.contains s.data) && !(isFloatWord s.data) && noEdgeWS s.data)

/-- A fixed per-file interaction: nothing checked, nothing selected. -/
def aIx : Interaction := ⟨false, [], false, [], TargetFormat.csv, false⟩

/-- A concrete unsupported upload. -/
def fTxt : UploadedFile := ⟨"notes.txt", RawContent.text "hello".data, 5⟩

/-- A concrete well-formed CSV upload. -/
def fCsv : UploadedFile := ⟨"data.csv", RawContent.text "a,b\n1,x\n".data, 8⟩

/-- A two-file batch whose first file fails at the loader. -/
def batchItems : List (Interaction × UploadedFile) := [(aIx, fTxt), (aIx, fCsv)]

/-- A concrete table with a numeric column (including a missing entry) and a
text column, used to exercise the CSV round trip. -/
def T4 : Table := ⟨2, [⟨"age", .nums [some 25, none]⟩, ⟨"name", .strs [some "A", some "B"]⟩]⟩

/-- A table with a number-shaped TEXT value: CSV cannot remember that "123"
was a string, and the reader's dtype inference turns it into the number
123. -/
def T4cex : Table := ⟨1, [⟨"a", ColData.strs [some "123"]⟩]⟩

end FileConv

namespace FileConv

/-! ### Helper lemmas -/

theorem isNums_of_hasMissingNum {c : Column} (h : hasMissingNum c = true) :
    c.data.isNums = true := by
  cases hc : c.data with
  | nums xs => simp [ColData.isNums]
  | strs xs => simp [hasMissingNum, hc] at h

theorem numericNames_ne_nil {t : Table} (hc : ∃ c ∈ t.cols, c.data.isNums = true) :
    (numericNames t).isEmpty = false := by
  obtain ⟨c, hmem, hnum⟩ := hc
  have hne : numericNames t ≠ [] := by
    unfold numericNames
    intro hnil
    rw [List.map_eq_nil_iff, List.filter_eq_nil_iff] at hnil
    exact absurd hnum (by simpa using hnil c hmem)
  simp [List.isEmpty_eq_false, hne]

theorem fillMissingNumeric_eq_map {t : Table}
    (hc : ∃ c ∈ t.cols, c.data.isNums = true) :
    fillMissingNumeric t = ⟨t.nrows, t.cols.map fillColumn⟩ := by
  unfold fillMissingNumeric
  rw [numericNames_ne_nil hc]
  simp

theorem fillColumn_strs {c : Column} (h : c.data.isNums = false) :
    fillColumn c = c := by
  cases hc : c.data with
  | nums xs => simp [ColData.isNums, hc] at h
  | strs xs => simp [fillColumn, hc]

theorem fillColumn_nums {c : Column} {xs : List (Option ℚ)}
    (h : c.data = ColData.nums xs) (hne : xs.filterMap id ≠ []) :
    fillColumn c =
      ⟨c.name, ColData.nums (xs.map (fun x => some (x.getD
        ((xs.filterMap id).sum / ((xs.filterMap id).length : ℚ)))))⟩ := by
  have hm : colMean xs =
      some ((xs.filterMap id).sum / ((xs.filterMap id).length : ℚ)) := by
    unfold colMean
    simp [List.isEmpty_eq_false, hne]
  simp [fillColumn, h, hm]

theorem fillColumn_allMissing {c : Column} {xs : List (Option ℚ)}
    (h : c.data = ColData.nums xs) (hall : ∀ x ∈ xs, x = none) :
    fillColumn c = c := by
  have hnil : xs.filterMap id = [] := by
    rw [List.filterMap_eq_nil_iff]
    intro a ha
    exact hall a ha
  have hm : colMean xs = none := by
    unfold colMean
    simp [hnil]
  simp [fillColumn, h, hm]

theorem find_by_name (cs : List Column) (n : String) (h : n ∈ cs.map Column.name) :
    ∃ c, cs.find? (fun c => c.name == n) = some c ∧ c.name = n := by
  induction cs with
  | nil => simp at h
  | cons a cs ih =>
    by_cases ha : a.name = n
    · exact ⟨a, by simp [List.find?, ha], ha⟩
    · have hn : n ∈ cs.map Column.name := by
        simp only [List.map_cons, List.mem_cons] at h
        rcases h with h | h
        · exact absurd h.symm ha
        · exact h
      obtain ⟨c, hc, hcn⟩ := ih hn
      refine ⟨c, ?_, hcn⟩
      have hfalse : (a.name == n) = false := by simp [ha]
      simp [List.find?, hfalse, hc]

theorem findCol_of_mem {t : Table} {n : String} (h : n ∈ t.names) :
    ∃ c, findCol t n = some c ∧ c.name = n :=
  find_by_name t.cols n h

theorem select_filterMap_names (t : Table) :
    ∀ sel : List String, (∀ n ∈ sel, n ∈ t.names) →
      (sel.filterMap (findCol t)).map Column.name = sel := by
  intro sel
  induction sel with
  | nil => simp
  | cons n rest ih =>
    intro hsub
    obtain ⟨c, hc, hcn⟩ := findCol_of_mem (hsub n (by simp))
    have := ih (fun m hm => hsub m (by simp [hm]))
    simp [List.filterMap_cons, hc, hcn, this]

theorem select_filterMap_get (t : Table) :
    ∀ sel : List String, (∀ n ∈ sel, n ∈ t.names) →
      ∀ i (hi : i < sel.length) (hi2 : i < (sel.filterMap (findCol t)).length),
        findCol t (sel.get ⟨i, hi⟩) = some ((sel.filterMap (findCol t)).get ⟨i, hi2⟩) := by
  intro sel
  induction sel with
  | nil => intro _ i hi; simp at hi
  | cons n rest ih =>
    intro hsub i hi hi2
    obtain ⟨c, hc, hcn⟩ := findCol_of_mem (hsub n (by simp))
    have hcons : (n :: rest).filterMap (findCol t) = c :: rest.filterMap (findCol t) := by
      simp [List.filterMap_cons, hc]
    rw [List.get_of_eq hcons ⟨i, hi2⟩]
    cases i with
    | zero => simpa using hc
    | succ j =>
      have hj : j < rest.length := by simpa using hi
      have hj2 : j < (rest.filterMap (findCol t)).length := by
        have h2 := hi2
        rw [hcons] at h2
        simpa using h2
      simpa using ih (fun m hm => hsub m (by simp [hm])) j hj hj2

/-! ### Claim theorems: the Transformer -/

/-- C1: for every table with at least one numeric column containing a missing
entry, `fillMissingNumeric` keeps the row count and the column count, leaves
every non-numeric column byte-for-byte identical, and, in every numeric column
having at least one non-missing value, replaces each missing entry by the
arithmetic mean (sum divided by count) of that column's non-missing values —
a quantity computed from that column's entries alone — while keeping
non-missing entries unchanged. -/
theorem fillMissingNumeric_mean_imputation (t : Table)
    (hmiss : ∃ c ∈ t.cols, hasMissingNum c = true) :
    (fillMissingNumeric t).nrows = t.nrows ∧
    (fillMissingNumeric t).cols.length = t.cols.length ∧
    ∀ i (hi : i < t.cols.length) (hi2 : i < (fillMissingNumeric t).cols.length),
      ((t.cols.get ⟨i, hi⟩).data.isNums = false →
        (fillMissingNumeric t).cols.get ⟨i, hi2⟩ = t.cols.get ⟨i, hi⟩) ∧
      (∀ xs, (t.cols.get ⟨i, hi⟩).data = ColData.nums xs → xs.filterMap id ≠ [] →
        (fillMissingNumeric t).cols.get ⟨i, hi2⟩ =
          ⟨(t.cols.get ⟨i, hi⟩).name,
           ColData.nums (xs.map (fun x => some (x.getD
             ((xs.filterMap id).sum / ((xs.filterMap id).length : ℚ)))))⟩) := by
  have hc : ∃ c ∈ t.cols, c.data.isNums = true := by
    obtain ⟨c, hmem, hm⟩ := hmiss
    exact ⟨c, hmem, isNums_of_hasMissingNum hm⟩
  have heq := fillMissingNumeric_eq_map hc
  refine ⟨by rw [heq], by rw [heq]; simp, ?_⟩
  intro i hi hi2
  have hget : (fillMissingNumeric t).cols.get ⟨i, hi2⟩ = fillColumn (t.cols.get ⟨i, hi⟩) := by
    rw [List.get_of_eq (congrArg Table.cols heq) ⟨i, hi2⟩]
    simp [List.get_map]
  constructor
  · intro hnn
    rw [hget, fillColumn_strs hnn]
  · intro xs hxs hne
    rw [hget, fillColumn_nums hxs hne]

/-- Witness for C1 at the spec's own scenario table (`age` = 25, NaN, 35;
`name` = A, B, C). -/
theorem fillMissingNumeric_mean_imputation_witness :
    (∃ c ∈ Tage.cols, hasMissingNum c = true) ∧
    ((fillMissingNumeric Tage).nrows = Tage.nrows ∧
      (fillMissingNumeric Tage).cols.length = Tage.cols.length ∧
      ∀ i (hi : i < Tage.cols.length) (hi2 : i < (fillMissingNumeric Tage).cols.length),
        ((Tage.cols.get ⟨i, hi⟩).data.isNums = false →
          (fillMissingNumeric Tage).cols.get ⟨i, hi2⟩ = Tage.cols.get ⟨i, hi⟩) ∧
        (∀ xs, (Tage.cols.get ⟨i, hi⟩).data = ColData.nums xs → xs.filterMap id ≠ [] →
          (fillMissingNumeric Tage).cols.get ⟨i, hi2⟩ =
            ⟨(Tage.cols.get ⟨i, hi⟩).name,
             ColData.nums (xs.map (fun x => some (x.getD
               ((xs.filterMap id).sum / ((xs.filterMap id).length : ℚ)))))⟩)) :=
  ⟨by decide, fillMissingNumeric_mean_imputation Tage (by decide)⟩

/-- C7: a numeric column whose entries are all missing has an undefined mean;
`fillna` then fills it with NaN, leaving it unchanged (no error, no
substitution), while every other numeric column that has a defined mean is
still filled with that mean. -/
theorem fillMissingNumeric_allMissing_column (t : Table) (i : ℕ)
    (hi : i < t.cols.length) (xs : List (Option ℚ))
    (hdata : (t.cols.get ⟨i, hi⟩).data = ColData.nums xs)
    (hall : ∀ x ∈ xs, x = none) :
    (fillMissingNumeric t).cols.length = t.cols.length ∧
    (∀ hi2 : i < (fillMissingNumeric t).cols.length,
      (fillMissingNumeric t).cols.get ⟨i, hi2⟩ = t.cols.get ⟨i, hi⟩) ∧
    (∀ j (hj : j < t.cols.length) (hj2 : j < (fillMissingNumeric t).cols.length) ys,
      (t.cols.get ⟨j, hj⟩).data = ColData.nums ys → ys.filterMap id ≠ [] →
      (fillMissingNumeric t).cols.get ⟨j, hj2⟩ =
        ⟨(t.cols.get ⟨j, hj⟩).name,
         ColData.nums (ys.map (fun y => some (y.getD
           ((ys.filterMap id).sum / ((ys.filterMap id).length : ℚ)))))⟩) := by
  have hc : ∃ c ∈ t.cols, c.data.isNums = true :=
    ⟨t.cols.get ⟨i, hi⟩, List.get_mem t.cols i hi, by rw [hdata]; simp [ColData.isNums]⟩
  have heq := fillMissingNumeric_eq_map hc
  have hget : ∀ j (hj : j < t.cols.length) (hj2 : j < (fillMissingNumeric t).cols.length),
      (fillMissingNumeric t).cols.get ⟨j, hj2⟩ = fillColumn (t.cols.get ⟨j, hj⟩) := by
    intro j hj hj2
    rw [List.get_of_eq (congrArg Table.cols heq) ⟨j, hj2⟩]
    simp [List.get_map]
  refine ⟨by rw [heq]; simp, ?_, ?_⟩
  · intro hi2
    rw [hget i hi hi2, fillColumn_allMissing hdata hall]
  · intro j hj hj2 ys hys hne
    rw [hget j hj hj2, fillColumn_nums hys hne]

/-- Witness for C7 at `T7`: the all-missing numeric column `a` stays
unchanged while column `b` = 1, NaN (defined mean) is still filled. -/
theorem fillMissingNumeric_allMissing_column_witness :
    (T7.cols.get ⟨0, by decide⟩).data = ColData.nums [none, none] ∧
    ((fillMissingNumeric T7).cols.length = T7.cols.length ∧
      (∀ hi2 : 0 < (fillMissingNumeric T7).cols.length,
        (fillMissingNumeric T7).cols.get ⟨0, hi2⟩ = T7.cols.get ⟨0, by decide⟩) ∧
      (∀ j (hj : j < T7.cols.length) (hj2 : j < (fillMissingNumeric T7).cols.length) ys,
        (T7.cols.get ⟨j, hj⟩).data = ColData.nums ys → ys.filterMap id ≠ [] →
        (fillMissingNumeric T7).cols.get ⟨j, hj2⟩ =
          ⟨(T7.cols.get ⟨j, hj⟩).name,
           ColData.nums (ys.map (fun y => some (y.getD
             ((ys.filterMap id).sum / ((ys.filterMap id).length : ℚ)))))⟩)) :=
  ⟨by decide, fillMissingNumeric_allMissing_column T7 0 (by decide) [none, none]
    (by decide) (by decide)⟩

/-- C2 counterexample: in `T2cex` the columns are `a`, `b` in that original
order, the selection `["b", "a"]` is a subset of the column names, yet
`df[["b", "a"]]` returns the columns in selection order `b`, `a`, not in the
table's original relative order `a`, `b` as the claim states. -/
theorem selectColumns_original_order_cex :
    (∀ n ∈ ["b", "a"], n ∈ T2cex.names) ∧
    (selectColumns T2cex ["b", "a"]).names ≠ ["a", "b"] := by
  constructor
  · decide
  · decide

/-- C2 (amended): for a duplicate-free selection S of existing column names,
`selectColumns` returns a table whose columns are exactly those named in S,
in the order S lists them (the selection order, not necessarily the table's
original order), with the row count preserved; selecting zero columns yields
a valid zero-column table with the same row count. -/
theorem selectColumns_spec (t : Table) (sel : List String)
    (hsub : ∀ n ∈ sel, n ∈ t.names) :
    (selectColumns t sel).nrows = t.nrows ∧
    (selectColumns t sel).names = sel ∧
    (∀ i (hi : i < sel.length) (hi2 : i < (selectColumns t sel).cols.length),
      findCol t (sel.get ⟨i, hi⟩) = some ((selectColumns t sel).cols.get ⟨i, hi2⟩)) ∧
    (selectColumns t []).cols = [] ∧ (selectColumns t []).nrows = t.nrows := by
  refine ⟨rfl, ?_, ?_, rfl, rfl⟩
  · exact select_filterMap_names t sel hsub
  · intro i hi hi2
    exact select_filterMap_get t sel hsub i hi hi2

/-- Witness for C2 (amended) at `T2cex` with selection `["b", "a"]`. -/
theorem selectColumns_spec_witness :
    (selectColumns T2cex ["b", "a"]).nrows = T2cex.nrows ∧
    (selectColumns T2cex ["b", "a"]).names = ["b", "a"] ∧
    (∀ i (hi : i < (["b", "a"] : List String).length)
        (hi2 : i < (selectColumns T2cex ["b", "a"]).cols.length),
      findCol T2cex ((["b", "a"] : List String).get ⟨i, hi⟩) =
        some ((selectColumns T2cex ["b", "a"]).cols.get ⟨i, hi2⟩)) ∧
    (selectColumns T2cex []).cols = [] ∧ (selectColumns T2cex []).nrows = T2cex.nrows :=
  selectColumns_spec T2cex ["b", "a"] (by decide)

/-- C9 counterexample: `fillna` is called with `inplace=True`
(src/main.py line 53), so the dataframe object passed in is updated in
place; on `T9cex` (one numeric column 25, NaN, 35) the object afterwards
differs from the table that was passed in, refuting "the input table passed
to fillMissingNumeric is not mutated". -/
theorem fill_input_mutated_cex : dfObjectAfterFill T9cex ≠ T9cex := by decide

/-- C9 (amended): both transformer operations are deterministic — equal
inputs give equal outputs, with no hidden state read or written — and
`selectColumns` builds a new table, but `fillna(..., inplace=True)` writes
the filled table into its input dataframe object, so after the call the
input object holds `fillMissingNumeric t`, not its previous value. -/
theorem transform_ops_deterministic (t₁ t₂ : Table) (s₁ s₂ : List String) :
    (t₁ = t₂ → fillMissingNumeric t₁ = fillMissingNumeric t₂) ∧
    (t₁ = t₂ → s₁ = s₂ → selectColumns t₁ s₁ = selectColumns t₂ s₂) ∧
    dfObjectAfterFill t₁ = fillMissingNumeric t₁ := by
  refine ⟨?_, ?_, rfl⟩
  · intro h; rw [h]
  · intro h h2; rw [h, h2]

/-! ### Lemmas about `leadsWith` and Python replace -/

theorem leadsWith_iff (p : List Char) : ∀ u, leadsWith p u = true ↔ ∃ v, u = p ++ v := by
  induction p with
  | nil => intro u; simp [leadsWith]
  | cons a ps ih =>
    intro u
    cases u with
    | nil =>
      simp only [leadsWith, List.cons_append]
      constructor
      · intro h; exact absurd h (by simp)
      · rintro ⟨v, hv⟩; exact absurd hv (by simp)
    | cons x xs =>
      simp only [leadsWith, Bool.and_eq_true, beq_iff_eq, List.cons_append, List.cons_eq_cons]
      rw [ih xs]
      constructor
      · rintro ⟨h1, v, hv⟩; exact ⟨v, h1.symm, hv⟩
      · rintro ⟨v, h1, hv⟩; exact ⟨h1.symm, v, hv⟩

theorem leadsWith_refl (p : List Char) : leadsWith p p = true := by
  rw [leadsWith_iff]
  exact ⟨[], by simp⟩

theorem leadsWith_append (p : List Char) :
    ∀ (s t : List Char), p.length ≤ s.length → leadsWith p (s ++ t) = leadsWith p s := by
  induction p with
  | nil => intro s t _; simp [leadsWith]
  | cons a ps ih =>
    intro s t hlen
    cases s with
    | nil => simp at hlen
    | cons x xs =>
      simp only [List.cons_append, leadsWith, List.append_eq]
      rw [ih xs t (by simpa using hlen)]

theorem containsSub_cons_false {pat : List Char} {x : Char} {xs : List Char}
    (h : containsSub pat (x :: xs) = false) :
    leadsWith pat (x :: xs) = false ∧ containsSub pat xs = false := by
  have := h
  unfold containsSub at this
  exact ⟨by rcases Bool.or_eq_false_iff.mp this with ⟨h1, _⟩; exact h1,
         by rcases Bool.or_eq_false_iff.mp this with ⟨_, h2⟩; exact h2⟩

theorem replaceAllAux_append (pat rep : List Char) (hp : pat ≠ []) :
    ∀ (s : List Char) (fuel : ℕ), (s ++ pat).length ≤ fuel →
      containsSub pat (s ++ pat.dropLast) = false →
      replaceAllAux pat rep fuel (s ++ pat) = s ++ rep := by
  intro s
  induction s with
  | nil =>
    intro fuel hfuel _
    cases pat with
    | nil => exact absurd rfl hp
    | cons p ps =>
      cases fuel with
      | zero => simp at hfuel
      | succ f =>
        simp [replaceAllAux, leadsWith_refl, List.drop_length]
  | cons c s' ih =>
    intro fuel hfuel hcs
    obtain ⟨hlw0, hcs'⟩ := containsSub_cons_false (by simpa using hcs)
    have hlw : leadsWith pat (c :: (s' ++ pat)) = false := by
      by_contra hcon
      rw [Bool.not_eq_false] at hcon
      have hplast := List.dropLast_append_getLast hp
      have hsplit : c :: (s' ++ pat) = (c :: (s' ++ pat.dropLast)) ++ [pat.getLast hp] := by
        rw [List.cons_append, List.append_assoc, hplast]
      rw [hsplit, leadsWith_append pat (c :: (s' ++ pat.dropLast)) [pat.getLast hp]
        (by simp; omega)] at hcon
      rw [hcon] at hlw0
      exact absurd hlw0 (by simp)
    cases fuel with
    | zero => simp at hfuel
    | succ f =>
      have hstep : replaceAllAux pat rep (f + 1) (c :: (s' ++ pat)) =
          c :: replaceAllAux pat rep f (s' ++ pat) := by
        simp only [replaceAllAux, hlw, Bool.false_eq_true, if_false]
      have hf2 : (s' ++ pat).length ≤ f := by
        simp only [List.cons_append, List.length_cons] at hfuel
        omega
      rw [List.cons_append, hstep, ih f hf2 hcs']
      simp

/-- C3 counterexample: for a file named "csv.csv" (extension token "csv"),
the code's `file_name.replace(original_ext, "xlsx")` replaces EVERY
occurrence and names the Excel download "xlsx.xlsx", whereas replacing the
first occurrence of the extension token, as the claim states, would give
"xlsx.csv". -/
theorem newNameFor_first_occurrence_cex :
    extOf "csv.csv" = "csv" ∧
    newNameFor "csv.csv" "csv" TargetFormat.excel = "xlsx.xlsx" ∧
    String.mk (replaceFirstPos "csv".data "xlsx".data "csv.csv".data) = "xlsx.csv" ∧
    newNameFor "csv.csv" "csv" TargetFormat.excel ≠
      String.mk (replaceFirstPos "csv".data "xlsx".data "csv.csv".data) := by decide

/-- C3 (amended): the export target filename is obtained by Python
`str.replace`, which substitutes the target token ("csv" for CSV, "xlsx"
for Excel) for EVERY occurrence of the original extension token; when the
token occurs exactly once, at the end of the filename, the result is the
stem with the trailing extension replaced — in particular exporting
"data.csv" to Excel yields "data.xlsx". -/
theorem newNameFor_trailing (stem ext' : List Char) (fmt : TargetFormat)
    (hne : ext' ≠ [])
    (honce : containsSub ext' (stem ++ ext'.dropLast) = false) :
    newNameFor ⟨stem ++ ext'⟩ ⟨ext'⟩ fmt = ⟨stem ++ targetExtTok fmt⟩ ∧
    newNameFor "data.csv" "csv" TargetFormat.excel = "data.xlsx" := by
  constructor
  · unfold newNameFor pythonReplace
    have hemp : ext'.isEmpty = false := by simp [List.isEmpty_eq_false, hne]
    rw [hemp]
    simp only [Bool.false_eq_true, if_false]
    unfold replaceAllPos
    rw [replaceAllAux_append ext' (targetExtTok fmt) hne stem (stem ++ ext').length
      (Nat.le_refl _) honce]
  · decide

/-- Witness for C3 (amended): "data.csv" with extension token "csv" exported
to Excel is named "data.xlsx". -/
theorem newNameFor_trailing_witness :
    newNameFor ⟨"data.".data ++ "csv".data⟩ ⟨"csv".data⟩ TargetFormat.excel =
      ⟨"data.".data ++ targetExtTok TargetFormat.excel⟩ ∧
    newNameFor "data.csv" "csv" TargetFormat.excel = "data.xlsx" :=
  newNameFor_trailing "data.".data "csv".data TargetFormat.excel (by decide) (by decide)

/-! ### Lemmas and claim theorems for the orchestrator and loader -/

theorem splitOnChar_not_mem {c : Char} : ∀ {l : List Char}, c ∉ l → splitOnChar c l = [l] := by
  intro l
  induction l with
  | nil => intro _; rfl
  | cons x xs ih =>
    intro h
    have hx : ¬x = c := fun hc => h (by simp [hc])
    have hxs : c ∉ xs := fun hc => h (by simp [hc])
    simp [splitOnChar, hx, ih hxs]

theorem sizeMB_gt_iff (f : UploadedFile) (m : ℕ) :
    sizeMB f > (m : ℚ) ↔ m * 1048576 < f.size := by
  unfold sizeMB
  rw [gt_iff_lt, lt_div_iff (by norm_num : (0 : ℚ) < 1024 * 1024)]
  rw [show ((1024 : ℚ) * 1024) = ((1048576 : ℕ) : ℚ) by norm_num, ← Nat.cast_mul, Nat.cast_lt]

/-- C5: a file whose declared size in MB exceeds the configured limit is
skipped: the loop body yields the skip outcome, the stage trace stops right
after the size check (before any parsing work), and in particular the
Loader stage is never entered. -/
theorem size_limit_skips_before_load (st : Settings) (a : Interaction) (f : UploadedFile)
    (h : sizeMB f > (st.max_file_size : ℚ)) :
    processFile st a f = Outcome.skippedSize ∧
    fileStages st a f = [Stage.received, Stage.sizeChecked] ∧
    Stage.loaderRun ∉ fileStages st a f := by
  refine ⟨?_, ?_, ?_⟩
  · unfold processFile
    rw [if_pos h]
  · unfold fileStages
    rw [if_pos h]
  · unfold fileStages
    rw [if_pos h]
    decide

/-- Witness for C5: a 20 MB file against the default 10 MB limit. -/
theorem size_limit_skips_before_load_witness :
    processFile ⟨10, false⟩ aIx ⟨"big.csv", RawContent.text [], 20971520⟩ =
      Outcome.skippedSize ∧
    fileStages ⟨10, false⟩ aIx ⟨"big.csv", RawContent.text [], 20971520⟩ =
      [Stage.received, Stage.sizeChecked] ∧
    Stage.loaderRun ∉ fileStages ⟨10, false⟩ aIx ⟨"big.csv", RawContent.text [], 20971520⟩ :=
  size_limit_skips_before_load ⟨10, false⟩ aIx ⟨"big.csv", RawContent.text [], 20971520⟩
    ((sizeMB_gt_iff ⟨"big.csv", RawContent.text [], 20971520⟩ 10).mpr (by decide))

/-- C6: the loader accepts exactly the (lowercased) extensions csv, xlsx,
xls — every other derived extension yields the unsupported-format error
result — and on an accepted extension it returns either a table or a caught
parse-error result (it is a total function, never an uncaught exception);
moreover the batch loop always produces one outcome per file, so a failed
file never aborts the processing of the others. -/
theorem loader_extension_contract :
    (∀ f : UploadedFile,
      (extOf f.name ∉ (["csv", "xlsx", "xls"] : List String) →
        handle_file_upload f = UploadResult.unsupported (extOf f.name)) ∧
      (extOf f.name ∈ (["csv", "xlsx", "xls"] : List String) →
        (∃ df, handle_file_upload f = UploadResult.ok df) ∨
        (∃ m, handle_file_upload f = UploadResult.failed m))) ∧
    (∀ (st : Settings) (items : List (Interaction × UploadedFile)),
      (processBatch st items).length = items.length) := by
  constructor
  · intro f
    constructor
    · intro hmem
      have h1 : ¬(extOf f.name = "csv") := fun h => hmem (by simp [h])
      have h2 : ¬(extOf f.name = "xlsx" ∨ extOf f.name = "xls") := by
        rintro (h | h) <;> exact hmem (by simp [h])
      unfold handle_file_upload
      rw [if_neg h1, if_neg h2]
    · intro hmem
      simp only [List.mem_cons, List.not_mem_nil, or_false] at hmem
      unfold handle_file_upload
      rcases hmem with h | h | h
      · rw [if_pos h]
        cases hr : pd_read_csv f.content with
        | ok df => exact Or.inl ⟨df, by simp [wrapLoad]⟩
        | error m => exact Or.inr ⟨m, by simp [wrapLoad]⟩
      · rw [if_neg (by rw [h]; decide), if_pos (Or.inl h)]
        cases hr : pd_read_excel f.content with
        | ok df => exact Or.inl ⟨df, by simp [wrapLoad]⟩
        | error m => exact Or.inr ⟨m, by simp [wrapLoad]⟩
      · rw [if_neg (by rw [h]; decide), if_pos (Or.inr h)]
        cases hr : pd_read_excel f.content with
        | ok df => exact Or.inl ⟨df, by simp [wrapLoad]⟩
        | error m => exact Or.inr ⟨m, by simp [wrapLoad]⟩
  · intro st items
    induction items with
    | nil => rfl
    | cons p rest ih =>
      obtain ⟨a, f⟩ := p
      simp [processBatch, ih]

/-- Witness for C6: a txt upload is reported unsupported, and an
uppercase-named CSV upload (extension lowercased to "csv") is accepted. -/
theorem loader_extension_contract_witness :
    (extOf fTxt.name ∉ (["csv", "xlsx", "xls"] : List String)) ∧
    handle_file_upload fTxt = UploadResult.unsupported (extOf fTxt.name) ∧
    (extOf (⟨"DATA.CSV", RawContent.text "a\n1\n".data, 4⟩ : UploadedFile).name ∈
      (["csv", "xlsx", "xls"] : List String)) ∧
    ((∃ df, handle_file_upload ⟨"DATA.CSV", RawContent.text "a\n1\n".data, 4⟩ =
        UploadResult.ok df) ∨
      (∃ m, handle_file_upload ⟨"DATA.CSV", RawContent.text "a\n1\n".data, 4⟩ =
        UploadResult.failed m)) :=
  ⟨by decide,
   (loader_extension_contract.1 fTxt).1 (by decide),
   by decide,
   (loader_extension_contract.1 ⟨"DATA.CSV", RawContent.text "a\n1\n".data, 4⟩).2 (by decide)⟩

/-- C8: outcomes are file-scoped and independent — the loop gives every file
exactly the outcome the loop body gives it alone, whatever the other files
in the batch do (together with the one-outcome-per-file length fact of C6,
this is the isolation invariant: a failing file halts only its own
pipeline). -/
theorem batch_isolation (st : Settings) :
    ∀ (items : List (Interaction × UploadedFile)) (i : ℕ)
      (hi : i < items.length) (hi2 : i < (processBatch st items).length),
      (processBatch st items).get ⟨i, hi2⟩ =
        processFile st (items.get ⟨i, hi⟩).1 (items.get ⟨i, hi⟩).2 := by
  intro items
  induction items with
  | nil => intro i hi _; simp at hi
  | cons p rest ih =>
    obtain ⟨a, f⟩ := p
    intro i hi hi2
    cases i with
    | zero => simp [processBatch]
    | succ j =>
      have hj : j < rest.length := by simpa using hi
      have hj2 : j < (processBatch st rest).length := by
        simpa [processBatch] using hi2
      simpa [processBatch] using ih j hj hj2

/-- Witness for C8: in a batch whose first file fails at the loader, the
second file still gets exactly the outcome it would get alone. -/
theorem batch_isolation_witness :
    (processBatch ⟨10, false⟩ batchItems).get ⟨1, by decide⟩ =
      processFile ⟨10, false⟩ (batchItems.get ⟨1, by decide⟩).1
        (batchItems.get ⟨1, by decide⟩).2 :=
  batch_isolation ⟨10, false⟩ batchItems 1 (by decide) (by decide)

/-- C10: for a filename without a dot, `name.split(".")[-1]` is the whole
name, so the derived extension is the entire lowercased filename; the file
is then reported unsupported unless that lowercased name is itself exactly
csv, xlsx or xls, in which case it is parsed as that format. -/
theorem no_dot_extension (nm : String) (content : RawContent) (sz : ℕ)
    (hnd : '.' ∉ nm.data) :
    extOf nm = ⟨nm.data.map Char.toLower⟩ ∧
    (extOf nm ∉ (["csv", "xlsx", "xls"] : List String) →
      handle_file_upload ⟨nm, content, sz⟩ = UploadResult.unsupported (extOf nm)) ∧
    (extOf nm = "csv" →
      handle_file_upload ⟨nm, content, sz⟩ = wrapLoad (pd_read_csv content)) ∧
    ((extOf nm = "xlsx" ∨ extOf nm = "xls") →
      handle_file_upload ⟨nm, content, sz⟩ = wrapLoad (pd_read_excel content)) := by
  refine ⟨?_, ?_, ?_, ?_⟩
  · unfold extOf
    rw [splitOnChar_not_mem hnd]
    rfl
  · intro hmem
    have h1 : ¬(extOf nm = "csv") := fun h => hmem (by simp [h])
    have h2 : ¬(extOf nm = "xlsx" ∨ extOf nm = "xls") := by
      rintro (h | h) <;> exact hmem (by simp [h])
    unfold handle_file_upload
    rw [if_neg h1, if_neg h2]
  · intro h
    unfold handle_file_upload
    rw [if_pos h]
  · intro h
    have h1 : ¬(extOf nm = "csv") := by
      rcases h with h | h <;> rw [h] <;> decide
    unfold handle_file_upload
    rw [if_neg h1, if_pos h]

/-- Witness for C10: the dot-free name "README" derives extension "readme"
and is reported unsupported. -/
theorem no_dot_extension_witness :
    extOf "README" = ⟨"README".data.map Char.toLower⟩ ∧
    handle_file_upload ⟨"README", RawContent.text "x".data, 1⟩ =
      UploadResult.unsupported (extOf "README") :=
  ⟨(no_dot_extension "README" (RawContent.text "x".data) 1 (by decide)).1,
   (no_dot_extension "README" (RawContent.text "x".data) 1 (by decide)).2.1 (by decide)⟩

/-! ### Digit-level lemmas for the decimal renderer and parser -/

theorem natDigitsAux_lt : ∀ (fuel n : ℕ), n ≤ fuel → ∀ d ∈ natDigitsAux fuel n, d < 10 := by
  intro fuel
  induction fuel with
  | zero =>
    intro n hn d hd
    interval_cases n
    simp [natDigitsAux] at hd
  | succ f ih =>
    intro n hn d hd
    cases n with
    | zero => simp [natDigitsAux] at hd
    | succ m =>
      simp only [natDigitsAux, List.mem_cons] at hd
      rcases hd with h | h
      · rw [h]; exact Nat.mod_lt _ (by norm_num)
      · exact ih ((m + 1) / 10) (by omega) d h

theorem ofDigits_natDigitsAux :
    ∀ (fuel n : ℕ), n ≤ fuel → Nat.ofDigits 10 (natDigitsAux fuel n) = n := by
  intro fuel
  induction fuel with
  | zero =>
    intro n hn
    interval_cases n
    simp [natDigitsAux]
  | succ f ih =>
    intro n hn
    cases n with
    | zero => simp [natDigitsAux]
    | succ m =>
      have hle : (m + 1) / 10 ≤ f := by omega
      simp only [natDigitsAux, Nat.ofDigits_cons, ih ((m + 1) / 10) hle]
      omega

theorem natDigits_lt {n : ℕ} : ∀ d ∈ natDigits n, d < 10 :=
  natDigitsAux_lt n n (Nat.le_refl n)

theorem ofDigits_natDigits (n : ℕ) : Nat.ofDigits 10 (natDigits n) = n :=
  ofDigits_natDigitsAux n n (Nat.le_refl n)

theorem ofDigits_replicate_zero : ∀ k : ℕ, Nat.ofDigits 10 (List.replicate k 0) = 0 := by
  intro k
  induction k with
  | zero => simp [Nat.ofDigits]
  | succ m ih => simp [List.replicate, Nat.ofDigits_cons, ih]

theorem padTo_lt {k n : ℕ} : ∀ d ∈ padTo k (natDigits n), d < 10 := by
  intro d hd
  unfold padTo at hd
  rcases List.mem_append.mp hd with h | h
  · exact natDigits_lt d h
  · rw [List.eq_of_mem_replicate h]; norm_num

theorem ofDigits_padTo (k n : ℕ) : Nat.ofDigits 10 (padTo k (natDigits n)) = n := by
  unfold padTo
  rw [Nat.ofDigits_append, ofDigits_natDigits, ofDigits_replicate_zero, mul_zero, add_zero]

theorem length_padTo (k : ℕ) (ds : List ℕ) : (padTo k ds).length = max ds.length k := by
  unfold padTo
  simp only [List.length_append, List.length_replicate]
  omega

theorem charVal_digitChar {d : ℕ} (h : d < 10) : charVal (digitChar d) = d := by
  interval_cases d <;> decide

theorem isDigitCh_digitChar {d : ℕ} (h : d < 10) : isDigitCh (digitChar d) = true := by
  interval_cases d <;> decide

theorem digitChar_ne {d : ℕ} (h : d < 10) :
    digitChar d ≠ '.' ∧ digitChar d ≠ ',' ∧ digitChar d ≠ '\n' ∧ digitChar d ≠ '-' ∧
    digitChar d ≠ '"' ∧ digitChar d ≠ '\r' := by
  interval_cases d <;> decide

theorem parseNatCh_rev_map :
    ∀ ds : List ℕ, (∀ d ∈ ds, d < 10) →
      parseNatCh (ds.reverse.map digitChar) = Nat.ofDigits 10 ds := by
  intro ds
  induction ds with
  | nil => intro _; simp [parseNatCh, Nat.ofDigits]
  | cons d rest ih =>
    intro hb
    have hrest := ih (fun x hx => hb x (by simp [hx]))
    simp only [List.reverse_cons, List.map_append, List.map_cons, List.map_nil]
    unfold parseNatCh
    rw [List.foldl_append]
    unfold parseNatCh at hrest
    rw [hrest, Nat.ofDigits_cons]
    simp only [List.foldl_cons, List.foldl_nil]
    rw [charVal_digitChar (hb d (by simp))]
    ring

theorem allDigits_rev_map {ds : List ℕ} (h : ∀ d ∈ ds, d < 10) :
    allDigits (ds.reverse.map digitChar) = true := by
  unfold allDigits
  rw [List.all_eq_true]
  intro c hc
  rw [List.mem_map] at hc
  obtain ⟨d, hd, hdc⟩ := hc
  rw [← hdc]
  exact isDigitCh_digitChar (h d (List.mem_reverse.mp hd))

/-! ### Splitting and joining round trips -/

theorem splitOnChar_ne_nil (c : Char) : ∀ l : List Char, splitOnChar c l ≠ [] := by
  intro l
  cases l with
  | nil => simp [splitOnChar]
  | cons x xs =>
    unfold splitOnChar
    by_cases h : x = c <;> simp [h]

theorem splitOnChar_cons (c x : Char) (xs : List Char) :
    splitOnChar c (x :: xs) =
      if x = c then [] :: splitOnChar c xs
      else (x :: (splitOnChar c xs).headD []) :: (splitOnChar c xs).tail := rfl

theorem splitOnChar_append {c : Char} :
    ∀ {A : List Char} (B : List Char), c ∉ A →
      splitOnChar c (A ++ c :: B) = A :: splitOnChar c B := by
  intro A
  induction A with
  | nil =>
    intro B _
    rw [List.nil_append, splitOnChar_cons, if_pos rfl]
  | cons a A' ih =>
    intro B h
    have ha : ¬a = c := fun hc => h (by simp [hc])
    have hA : c ∉ A' := fun hc => h (by simp [hc])
    rw [List.cons_append, splitOnChar_cons, ih B hA, if_neg ha]
    simp

theorem joinSep_split {c : Char} :
    ∀ fs : List (List Char), fs ≠ [] → (∀ f ∈ fs, c ∉ f) →
      splitOnChar c (joinSep c fs) = fs := by
  intro fs
  induction fs with
  | nil => intro h; exact absurd rfl h
  | cons x rest ih =>
    intro _ hc
    cases rest with
    | nil => exact splitOnChar_not_mem (hc x (by simp))
    | cons y rest' =>
      have hx : c ∉ x := hc x (by simp)
      unfold joinSep
      rw [splitOnChar_append _ hx, ih (by simp) (fun f hf => hc f (by simp [hf]))]

theorem joinLines_split {ls : List (List Char)} (h : ∀ l ∈ ls, '\n' ∉ l) :
    splitOnChar '\n' ((ls.map (fun l => l ++ ['\n'])).join) = ls ++ [[]] := by
  induction ls with
  | nil => simp [splitOnChar]
  | cons a rest ih =>
    have ha : '\n' ∉ a := h a (by simp)
    simp only [List.map_cons, List.join_cons, List.append_assoc, List.singleton_append]
    rw [splitOnChar_append _ ha, ih (fun l hl => h l (by simp [hl]))]
    rfl

theorem filter_nonempty_append {ls : List (List Char)} (h : ∀ l ∈ ls, l ≠ []) :
    (ls ++ [([] : List Char)]).filter (fun l => !l.isEmpty) = ls := by
  rw [List.filter_append]
  have h1 : (ls.filter (fun l => !l.isEmpty)) = ls := by
    rw [List.filter_eq_self]
    intro l hl
    simp [List.isEmpty_eq_false, h l hl]
  have h2 : (([([] : List Char)]).filter (fun l => !l.isEmpty)) = [] := by decide
  rw [h1, h2, List.append_nil]

/-! ### The decimal renderer parses back to the same rational -/

theorem not_dot_mem_map_digitChar {ds : List ℕ} (h : ∀ d ∈ ds, d < 10) :
    '.' ∉ ds.reverse.map digitChar := by
  intro hmem
  rw [List.mem_map] at hmem
  obtain ⟨d, hd, hdc⟩ := hmem
  exact (digitChar_ne (h d (List.mem_reverse.mp hd))).1 hdc

theorem renderDec_eq (n e : ℕ) :
    renderDec n e =
      ((padTo (e + 1) (natDigits n)).drop e).reverse.map digitChar ++
        '.' :: ((padTo (e + 1) (natDigits n)).take e).reverse.map digitChar := rfl

theorem renderDec_split (n e : ℕ) :
    splitOnChar '.' (renderDec n e) =
      [((padTo (e + 1) (natDigits n)).drop e).reverse.map digitChar,
       ((padTo (e + 1) (natDigits n)).take e).reverse.map digitChar] := by
  rw [renderDec_eq]
  have hb : ∀ d ∈ padTo (e + 1) (natDigits n), d < 10 := padTo_lt
  rw [splitOnChar_append _ (not_dot_mem_map_digitChar
    (fun d hd => hb d (List.mem_of_mem_drop hd)))]
  rw [splitOnChar_not_mem (not_dot_mem_map_digitChar
    (fun d hd => hb d (List.mem_of_mem_take hd)))]

theorem digitChar_ne2 {d : ℕ} (h : d < 10) :
    digitChar d ≠ 'e' ∧ digitChar d ≠ 'E' ∧ digitChar d ≠ '+' ∧
    (decide ('0' ≤ digitChar d) && decide (digitChar d ≤ '9')) = true := by
  interval_cases d <;> decide

theorem mem_renderDec {c : Char} {n e : ℕ} (h : c ∈ renderDec n e) :
    c = '.' ∨ ∃ d, d < 10 ∧ c = digitChar d := by
  rw [renderDec_eq] at h
  rcases List.mem_append.mp h with h | h
  · rw [List.mem_map] at h
    obtain ⟨d, hd, hdc⟩ := h
    exact Or.inr ⟨d, padTo_lt d (List.mem_of_mem_drop (List.mem_reverse.mp hd)), hdc.symm⟩
  · rcases List.mem_cons.mp h with h | h
    · exact Or.inl h
    · rw [List.mem_map] at h
      obtain ⟨d, hd, hdc⟩ := h
      exact Or.inr ⟨d, padTo_lt d (List.mem_of_mem_take (List.mem_reverse.mp hd)), hdc.symm⟩

theorem map_lowerE_renderDec (n e : ℕ) : (renderDec n e).map lowerE = renderDec n e := by
  have h1 : ∀ c ∈ renderDec n e, lowerE c = id c := by
    intro c hc
    rcases mem_renderDec hc with h | ⟨d, hd, hdc⟩
    · rw [h]; decide
    · rw [hdc]
      unfold lowerE
      rw [if_neg ((digitChar_ne2 hd).2.1)]
      rfl
  rw [List.map_congr_left h1, List.map_id]

theorem splitE_renderDec (n e : ℕ) :
    splitOnChar 'e' ((renderDec n e).map lowerE) = [renderDec n e] := by
  rw [map_lowerE_renderDec]
  apply splitOnChar_not_mem
  intro hc
  rcases mem_renderDec hc with h | ⟨d, hd, hdc⟩
  · exact absurd h (by decide)
  · exact (digitChar_ne2 hd).1 hdc.symm

theorem parseMantissa_renderDec (n e : ℕ) (he : 1 ≤ e) :
    parseMantissa (renderDec n e) = some ((n : ℚ) / ((10 : ℚ) ^ e)) := by
  have hb : ∀ d ∈ padTo (e + 1) (natDigits n), d < 10 := padTo_lt
  have hlen : e + 1 ≤ (padTo (e + 1) (natDigits n)).length := by
    rw [length_padTo]; omega
  have hipne : ((padTo (e + 1) (natDigits n)).drop e).reverse.map digitChar ≠ [] := by
    simp only [ne_eq, List.map_eq_nil_iff, List.reverse_eq_nil_iff, List.drop_eq_nil_iff]
    omega
  have hflen : (((padTo (e + 1) (natDigits n)).take e).reverse.map digitChar).length = e := by
    simp only [List.length_map, List.length_reverse, List.length_take]
    omega
  unfold parseMantissa
  rw [renderDec_split]
  show (if ¬(((padTo (e + 1) (natDigits n)).drop e).reverse.map digitChar = [] ∧
        ((padTo (e + 1) (natDigits n)).take e).reverse.map digitChar = []) ∧
      allDigits (((padTo (e + 1) (natDigits n)).drop e).reverse.map digitChar) ∧
      allDigits (((padTo (e + 1) (natDigits n)).take e).reverse.map digitChar) then
    some ((parseNatCh (((padTo (e + 1) (natDigits n)).drop e).reverse.map digitChar) : ℚ) +
      (parseNatCh (((padTo (e + 1) (natDigits n)).take e).reverse.map digitChar) : ℚ) /
        (10 ^ (((padTo (e + 1) (natDigits n)).take e).reverse.map digitChar).length : ℚ))
    else none) = some ((n : ℚ) / ((10 : ℚ) ^ e))
  rw [if_pos ⟨fun hh => hipne hh.1,
    allDigits_rev_map (fun d hd => hb d (List.mem_of_mem_drop hd)),
    allDigits_rev_map (fun d hd => hb d (List.mem_of_mem_take hd))⟩]
  rw [parseNatCh_rev_map _ (fun d hd => hb d (List.mem_of_mem_drop hd)),
    parseNatCh_rev_map _ (fun d hd => hb d (List.mem_of_mem_take hd)), hflen]
  have hsum : Nat.ofDigits 10 ((padTo (e + 1) (natDigits n)).take e) +
      10 ^ e * Nat.ofDigits 10 ((padTo (e + 1) (natDigits n)).drop e) = n := by
    have happ : Nat.ofDigits 10
        (((padTo (e + 1) (natDigits n)).take e) ++ ((padTo (e + 1) (natDigits n)).drop e)) =
        Nat.ofDigits 10 ((padTo (e + 1) (natDigits n)).take e) +
          10 ^ ((padTo (e + 1) (natDigits n)).take e).length *
            Nat.ofDigits 10 ((padTo (e + 1) (natDigits n)).drop e) := Nat.ofDigits_append
    rw [List.take_append_drop, ofDigits_padTo] at happ
    have htl : ((padTo (e + 1) (natDigits n)).take e).length = e := by
      simp only [List.length_take]
      omega
    rw [htl] at happ
    omega
  congr 1
  have hq : (((Nat.ofDigits 10 ((padTo (e + 1) (natDigits n)).take e) : ℕ) : ℚ) +
      (10 : ℚ) ^ e * ((Nat.ofDigits 10 ((padTo (e + 1) (natDigits n)).drop e) : ℕ) : ℚ)) =
      (n : ℚ) := by
    exact_mod_cast congrArg (fun x : ℕ => (x : ℚ)) hsum
  have hpow : ((10 : ℚ) ^ e) ≠ 0 := pow_ne_zero _ (by norm_num)
  field_simp
  linear_combination hq

theorem parseUnsigned_renderDec (n e : ℕ) (he : 1 ≤ e) :
    parseUnsigned (renderDec n e) = some ((n : ℚ) / ((10 : ℚ) ^ e)) := by
  unfold parseUnsigned
  rw [splitE_renderDec]
  exact parseMantissa_renderDec n e he

theorem parseNumField_cons (c : Char) (rest : List Char) :
    parseNumField (c :: rest) =
      if c = '-' then (parseUnsigned rest).map (fun x => -x)
      else if c = '+' then parseUnsigned rest
      else parseUnsigned (c :: rest) := rfl

theorem renderDec_head (n e : ℕ) :
    ∃ c rest, renderDec n e = c :: rest ∧ c ≠ '-' ∧ c ≠ '+' := by
  rw [renderDec_eq]
  cases hip : ((padTo (e + 1) (natDigits n)).drop e).reverse.map digitChar with
  | nil =>
    exact ⟨'.', ((padTo (e + 1) (natDigits n)).take e).reverse.map digitChar, rfl,
      by decide, by decide⟩
  | cons c rest =>
    refine ⟨c, rest ++ '.' :: ((padTo (e + 1) (natDigits n)).take e).reverse.map digitChar,
      by rw [List.cons_append], ?_, ?_⟩
    all_goals
      have hc : c ∈ ((padTo (e + 1) (natDigits n)).drop e).reverse.map digitChar := by
        rw [hip]; simp
    all_goals rw [List.mem_map] at hc
    all_goals obtain ⟨d, hd, hdc⟩ := hc
    all_goals rw [← hdc]
    · exact (digitChar_ne (padTo_lt d (List.mem_of_mem_drop (List.mem_reverse.mp hd)))).2.2.2.1
    · exact (digitChar_ne2 (padTo_lt d (List.mem_of_mem_drop (List.mem_reverse.mp hd)))).2.2.1

theorem parseNumField_renderNum (q : ℚ) (hdvd : q.den ∣ 10 ^ q.den) :
    parseNumField (renderNum q) = some q := by
  obtain ⟨k, hk⟩ := hdvd
  have hden0 : 0 < q.den := q.pos
  have hdiv : 10 ^ q.den / q.den = k := by
    rw [hk]
    exact Nat.mul_div_cancel_left k hden0
  have hk0 : (k : ℚ) ≠ 0 := by
    intro h
    have : k = 0 := by exact_mod_cast h
    rw [this, mul_zero] at hk
    exact absurd hk (pow_ne_zero _ (by norm_num))
  have hcast : ((q.num.natAbs * (10 ^ q.den / q.den) : ℕ) : ℚ) / ((10 : ℚ) ^ q.den) =
      (q.num.natAbs : ℚ) / (q.den : ℚ) := by
    rw [hdiv]
    have h10 : ((10 : ℚ) ^ q.den) = ((q.den : ℚ)) * (k : ℚ) := by
      exact_mod_cast congrArg (fun x : ℕ => (x : ℚ)) hk
    rw [h10]
    push_cast
    rw [mul_div_mul_right _ _ hk0]
  by_cases hneg : q.num < 0
  · have hrn : renderNum q = '-' :: renderDec (q.num.natAbs * (10 ^ q.den / q.den)) q.den := by
      unfold renderNum
      rw [if_pos hneg]
      rfl
    rw [hrn, parseNumField_cons, if_pos rfl, parseUnsigned_renderDec _ _ hden0, hcast]
    rw [Option.map_some']
    congr 1
    have habs : (q.num.natAbs : ℚ) = -(q.num : ℚ) := by
      rw [Int.cast_natAbs]
      exact_mod_cast abs_of_neg hneg
    rw [habs]
    rw [neg_div, neg_neg, Rat.num_div_den]
  · have hrn : renderNum q = renderDec (q.num.natAbs * (10 ^ q.den / q.den)) q.den := by
      unfold renderNum
      rw [if_neg hneg]
      rfl
    obtain ⟨c, rest, hcr, hcne, hcnp⟩ :=
      renderDec_head (q.num.natAbs * (10 ^ q.den / q.den)) q.den
    rw [hrn, hcr, parseNumField_cons, if_neg hcne, if_neg hcnp, ← hcr,
      parseUnsigned_renderDec _ _ hden0, hcast]
    congr 1
    have habs : (q.num.natAbs : ℚ) = (q.num : ℚ) := by
      rw [Int.cast_natAbs]
      exact_mod_cast abs_of_nonneg (le_of_not_lt hneg)
    rw [habs, Rat.num_div_den]

/-! ### List indexing helpers -/

theorem getD_map_lt {α β : Type} (f : α → β) (d : β) :
    ∀ (l : List α) (j : ℕ), (h : j < l.length) →
      (l.map f).getD j d = f (l.get ⟨j, h⟩) := by
  intro l
  induction l with
  | nil => intro j h; simp at h
  | cons x xs ih =>
    intro j h
    cases j with
    | zero => rfl
    | succ k => exact ih k (by simpa using h)

theorem getD_mem_or {α : Type} (d : α) :
    ∀ (l : List α) (i : ℕ), l.getD i d = d ∨ l.getD i d ∈ l := by
  intro l
  induction l with
  | nil => intro i; left; cases i <;> rfl
  | cons x xs ih =>
    intro i
    cases i with
    | zero => right; simp
    | succ k =>
      rcases ih k with h | h
      · left; simpa using h
      · right; simp only [List.getD_cons_succ]; exact List.mem_cons_of_mem x h

theorem range_map_getD {α : Type} (d : α) :
    ∀ l : List α, (List.range l.length).map (fun i => l.getD i d) = l := by
  intro l
  induction l with
  | nil => simp
  | cons x xs ih =>
    rw [List.length_cons, List.range_succ_eq_map, List.map_cons, List.map_map]
    simp only [List.getD_cons_zero, List.cons.injEq, true_and]
    have : ((fun i => (x :: xs).getD i d) ∘ Nat.succ) = fun i => xs.getD i d := by
      funext i
      simp [Function.comp]
    rw [this, ih]

/-! ### The rendered fields are CSV-safe and are not NA tokens -/

theorem renderNum_no_sep (q : ℚ) : ',' ∉ renderNum q ∧ '\n' ∉ renderNum q := by
  have hmem : ∀ c ∈ renderNum q, c = '-' ∨ c = '.' ∨ ∃ d, d < 10 ∧ c = digitChar d := by
    intro c hc
    unfold renderNum at hc
    rcases List.mem_append.mp hc with h | h
    · by_cases hq : q.num < 0
      · rw [if_pos hq] at h
        simp only [List.mem_singleton] at h
        exact Or.inl h
      · rw [if_neg hq] at h
        simp at h
    · rcases mem_renderDec h with h | h
      · exact Or.inr (Or.inl h)
      · exact Or.inr (Or.inr h)
  constructor
  · intro hc
    rcases hmem ',' hc with h | h | ⟨d, hd, hdc⟩
    · exact absurd h (by decide)
    · exact absurd h (by decide)
    · exact (digitChar_ne hd).2.1 hdc.symm
  · intro hc
    rcases hmem '\n' hc with h | h | ⟨d, hd, hdc⟩
    · exact absurd h (by decide)
    · exact absurd h (by decide)
    · exact (digitChar_ne hd).2.2.1 hdc.symm

theorem renderNum_ne_nil (q : ℚ) : renderNum q ≠ [] := by
  obtain ⟨c, rest, hcr, _⟩ := renderDec_head (q.num.natAbs * (10 ^ q.den / q.den)) q.den
  unfold renderNum
  rw [hcr]
  intro h
  rcases List.append_eq_nil.mp h with ⟨_, h2⟩
  exact absurd h2 (by simp)

theorem renderNum_chars (q : ℚ) : ∀ c ∈ renderNum q, numFieldChar c = true := by
  intro c hc
  unfold renderNum at hc
  rcases List.mem_append.mp hc with h | h
  · by_cases hq : q.num < 0
    · rw [if_pos hq] at h
      simp only [List.mem_singleton] at h
      rw [h]
      decide
    · rw [if_neg hq] at h
      simp at h
  · rcases mem_renderDec h with h | ⟨d, hd, hdc⟩
    · rw [h]; decide
    · rw [hdc]
      have hr := (digitChar_ne2 hd).2.2.2
      unfold numFieldChar
      rw [hr]
      simp

/-- Every default NA token contains a character outside the renderer's
sign/point/digit alphabet, so no rendered number ever collides with one. -/
theorem naTokens_have_nonNum :
    (naTokens.all (fun tok => tok.any (fun c => !numFieldChar c))) = true := by decide

theorem renderNum_not_NA (q : ℚ) : naTokens.contains (renderNum q) = false := by
  by_contra hcon
  rw [Bool.not_eq_false] at hcon
  have hmem : renderNum q ∈ naTokens := by simpa using hcon
  have h1 := (List.all_eq_true.mp naTokens_have_nonNum) (renderNum q) hmem
  rw [List.any_eq_true] at h1
  obtain ⟨c, hc, hnc⟩ := h1
  rw [renderNum_chars q c hc] at hnc
  exact absurd hnc (by simp)

theorem fieldIsNA_nil : fieldIsNA ([] : List Char) = true := rfl

theorem fieldIsNA_renderNum (q : ℚ) : fieldIsNA (renderNum q) = false := by
  unfold fieldIsNA
  rw [renderNum_not_NA]
  simp [List.isEmpty_eq_false, renderNum_ne_nil q]

theorem fieldIsNA_false_of {f : List Char} (hne : f ≠ [])
    (hna : naTokens.contains f = false) : fieldIsNA f = false := by
  unfold fieldIsNA
  rw [hna]
  simp [List.isEmpty_eq_false, hne]

theorem csvSafe_no_sep {s : List Char} (h : csvSafe s = true) : ',' ∉ s ∧ '\n' ∉ s := by
  unfold csvSafe at h
  rw [List.all_eq_true] at h
  constructor
  · intro hc
    have := h ',' hc
    simp [csvSafeChar] at this
  · intro hc
    have := h '\n' hc
    simp [csvSafeChar] at this

/-! ### joinSep facts -/

theorem mem_joinSep {sep : Char} :
    ∀ {fs : List (List Char)} {c : Char}, c ∈ joinSep sep fs →
      c = sep ∨ ∃ f ∈ fs, c ∈ f := by
  intro fs
  induction fs with
  | nil => intro c hc; simp [joinSep] at hc
  | cons x rest ih =>
    intro c hc
    cases rest with
    | nil => exact Or.inr ⟨x, by simp, hc⟩
    | cons y rest' =>
      unfold joinSep at hc
      rcases List.mem_append.mp hc with h | h
      · exact Or.inr ⟨x, by simp, h⟩
      · rcases List.mem_cons.mp h with h | h
        · exact Or.inl h
        · rcases ih h with h | ⟨f, hf, hcf⟩
          · exact Or.inl h
          · exact Or.inr ⟨f, by simp [hf], hcf⟩

theorem joinSep_ne_nil {sep : Char} {x : List Char} {fs : List (List Char)}
    (hx : x ≠ []) : joinSep sep (x :: fs) ≠ [] := by
  cases fs with
  | nil => exact hx
  | cons y rest =>
    unfold joinSep
    intro h
    rcases List.append_eq_nil.mp h with ⟨_, h2⟩
    exact absurd h2 (by simp)

/-! ### Per-column round trip through the CSV text -/

theorem getD_eq_get {α : Type} (d : α) :
    ∀ (l : List α) (i : ℕ) (h : i < l.length), l.getD i d = l.get ⟨i, h⟩ := by
  intro l
  induction l with
  | nil => intro i h; simp at h
  | cons x xs ih =>
    intro i h
    cases i with
    | zero => rfl
    | succ k => exact ih k (by simpa using h)

theorem getD_some_mem {α : Type} {xs : List (Option α)} {i : ℕ} {a : α}
    (h : xs.getD i none = some a) : some a ∈ xs := by
  rcases getD_mem_or none xs i with h2 | h2
  · rw [h] at h2
    exact absurd h2 (by simp)
  · rw [h] at h2
    exact h2

theorem colCellsOk_nums {c : Column} {xs : List (Option ℚ)}
    (hd : c.data = ColData.nums xs) (hok : colCellsOk c = true) :
    ∀ q : ℚ, some q ∈ xs → q.den ∣ 10 ^ q.den := by
  intro q hq
  unfold colCellsOk at hok
  rw [hd] at hok
  rw [List.all_eq_true] at hok
  have := hok (some q) hq
  exact of_decide_eq_true this

theorem colCellsOk_strs {c : Column} {xs : List (Option String)}
    (hd : c.data = ColData.strs xs) (hok : colCellsOk c = true) :
    ∀ s : String, some s ∈ xs →
      s.data ≠ [] ∧ csvSafe s.data = true ∧ parseNumField s.data = none ∧
      naTokens.contains s.data = false := by
  intro s hs
  unfold colCellsOk at hok
  rw [hd] at hok
  rw [List.all_eq_true] at hok
  have hprops := hok (some s) hs
  simp only [Bool.and_eq_true, Bool.not_eq_true'] at hprops
  refine ⟨?_, hprops.1.1.1.1.2, Option.isNone_iff_eq_none.mp hprops.1.1.1.2,
    hprops.1.1.2⟩
  intro hnil
  have h5 := hprops.1.1.1.1.1
  rw [hnil] at h5
  simp at h5

theorem colField_no_sep {c : Column} (hok : colCellsOk c = true) (i : ℕ) :
    ',' ∉ colField c i ∧ '\n' ∉ colField c i := by
  cases hd : c.data with
  | nums xs =>
    have hf : colField c i = renderCellNum (xs.getD i none) := by
      unfold colField
      rw [hd]
    rw [hf]
    cases hx : xs.getD i none with
    | none => simp [renderCellNum]
    | some q => simpa [renderCellNum] using renderNum_no_sep q
  | strs xs =>
    have hf : colField c i = renderCellStr (xs.getD i none) := by
      unfold colField
      rw [hd]
    rw [hf]
    cases hx : xs.getD i none with
    | none => simp [renderCellStr]
    | some s =>
      have hmem := getD_some_mem hx
      have hsafe := (colCellsOk_strs hd hok s hmem).2.1
      simpa [renderCellStr] using csvSafe_no_sep hsafe

theorem inferCol_roundtrip (c : Column) (nr : ℕ) (hlen : c.data.length = nr)
    (hok : colCellsOk c = true) :
    (inferCol ((List.range nr).map (fun i => colField c i))).cells = c.data.cells := by
  cases hd : c.data with
  | nums xs =>
    have hxlen : xs.length = nr := by rw [← hlen, hd]; rfl
    have hdvd := colCellsOk_nums hd hok
    have hfield : ∀ i, colField c i = renderCellNum (xs.getD i none) := by
      intro i
      unfold colField
      rw [hd]
    have hall : ((List.range nr).map (fun i => colField c i)).all
        (fun f => fieldIsNA f || (parseNumField f).isSome) = true := by
      rw [List.all_eq_true]
      intro f hf
      rw [List.mem_map] at hf
      obtain ⟨i, _, hfi⟩ := hf
      rw [← hfi, hfield]
      cases hx : xs.getD i none with
      | none => simp [renderCellNum, fieldIsNA_nil]
      | some q =>
        have hqm := getD_some_mem hx
        simp only [renderCellNum]
        rw [parseNumField_renderNum q (hdvd q hqm)]
        simp
    unfold inferCol
    rw [if_pos hall]
    have hmap : ((List.range nr).map (fun i => colField c i)).map
        (fun f => if fieldIsNA f then none else parseNumField f) = xs := by
      rw [List.map_map]
      have hcong : ∀ i ∈ List.range nr,
          ((fun f => if fieldIsNA f then none else parseNumField f) ∘
            (fun i => colField c i)) i = xs.getD i none := by
        intro i _
        simp only [Function.comp]
        rw [hfield]
        cases hx : xs.getD i none with
        | none => simp [renderCellNum, fieldIsNA_nil]
        | some q =>
          have hqm := getD_some_mem hx
          have hna := fieldIsNA_renderNum q
          simp only [renderCellNum]
          rw [if_neg (by simp [hna])]
          exact parseNumField_renderNum q (hdvd q hqm)
      rw [List.map_congr_left hcong, ← hxlen, range_map_getD]
    rw [hmap]
  | strs xs =>
    have hxlen : xs.length = nr := by rw [← hlen, hd]; rfl
    have hsok := colCellsOk_strs hd hok
    have hfield : ∀ i, colField c i = renderCellStr (xs.getD i none) := by
      intro i
      unfold colField
      rw [hd]
    by_cases hallm : ∀ x ∈ xs, x = none
    · have hfields : ∀ i, colField c i = [] := by
        intro i
        rw [hfield]
        cases hx : xs.getD i none with
        | none => rfl
        | some s => exact absurd (hallm (some s) (getD_some_mem hx)) (by simp)
      have hallb : ((List.range nr).map (fun i => colField c i)).all
          (fun f => fieldIsNA f || (parseNumField f).isSome) = true := by
        rw [List.all_eq_true]
        intro f hf
        rw [List.mem_map] at hf
        obtain ⟨i, _, hfi⟩ := hf
        rw [← hfi, hfields]
        simp [fieldIsNA_nil]
      unfold inferCol
      rw [if_pos hallb]
      have h1 : ((List.range nr).map (fun i => colField c i)).map
          (fun f => if fieldIsNA f then none else parseNumField f) =
          List.replicate nr (none : Option ℚ) := by
        have hmemn : ∀ b ∈ ((List.range nr).map (fun i => colField c i)).map
            (fun f => if fieldIsNA f then none else parseNumField f), b = (none : Option ℚ) := by
          intro b hb
          rw [List.map_map, List.mem_map] at hb
          obtain ⟨i, _, hbi⟩ := hb
          simp only [Function.comp, hfields] at hbi
          rw [← hbi]
          rfl
        have := List.eq_replicate_of_mem hmemn
        rwa [List.length_map, List.length_map, List.length_range] at this
      rw [h1]
      simp only [ColData.cells, List.map_replicate]
      have h2 : ∀ b ∈ xs.map (fun x => match x with
          | none => Cell.missing | some s => Cell.str s), b = Cell.missing := by
        intro b hb
        rw [List.mem_map] at hb
        obtain ⟨x, hx, hbx⟩ := hb
        rw [hallm x hx] at hbx
        exact hbx.symm
      have h3 := List.eq_replicate_of_mem h2
      rw [List.length_map, hxlen] at h3
      rw [h3]
    · push_neg at hallm
      obtain ⟨x, hxm, hxne⟩ := hallm
      cases x with
      | none => exact absurd rfl hxne
      | some s =>
        obtain ⟨⟨i, hi⟩, hget⟩ := List.mem_iff_get.mp hxm
        have hgetD : xs.getD i none = some s := by
          rw [getD_eq_get none xs i hi, hget]
        have hsprops := hsok s hxm
        have hnas : fieldIsNA s.data = false :=
          fieldIsNA_false_of hsprops.1 hsprops.2.2.2
        have hfalse : ¬(((List.range nr).map (fun i => colField c i)).all
            (fun f => fieldIsNA f || (parseNumField f).isSome) = true) := by
          intro hcontra
          rw [List.all_eq_true] at hcontra
          have hfmem : colField c i ∈ (List.range nr).map (fun i => colField c i) := by
            rw [List.mem_map]
            exact ⟨i, List.mem_range.mpr (by omega), rfl⟩
          have := hcontra _ hfmem
          rw [hfield, hgetD] at this
          simp only [renderCellStr] at this
          rcases Bool.or_eq_true_iff.mp this with h | h
          · rw [hnas] at h
            exact absurd h (by simp)
          · rw [hsprops.2.2.1] at h
            simp at h
        unfold inferCol
        rw [if_neg hfalse]
        have hmap : ((List.range nr).map (fun i => colField c i)).map
            (fun f => if fieldIsNA f then none else some (String.mk f)) = xs := by
          rw [List.map_map]
          have hcong : ∀ j ∈ List.range nr,
              ((fun f => if fieldIsNA f then none else some (String.mk f)) ∘
                (fun i => colField c i)) j = xs.getD j none := by
            intro j _
            simp only [Function.comp]
            rw [hfield]
            cases hx : xs.getD j none with
            | none => simp [renderCellStr, fieldIsNA_nil]
            | some s2 =>
              have hm2 := getD_some_mem hx
              have hp2 := hsok s2 hm2
              have hf2 : fieldIsNA s2.data = false :=
                fieldIsNA_false_of hp2.1 hp2.2.2.2
              simp only [renderCellStr]
              rw [if_neg (by simp [hf2])]
          rw [List.map_congr_left hcong, ← hxlen, range_map_getD]
        rw [hmap]

/-! ### Line-level facts and the CSV round-trip theorem -/

theorem headerLine_props (t : Table) (hc : t.cols ≠ [])
    (hnames : ∀ n ∈ t.names, n.data ≠ [] ∧ csvSafe n.data = true) :
    headerLine t ≠ [] ∧ '\n' ∉ headerLine t ∧
    splitOnChar ',' (headerLine t) = t.cols.map (fun c => c.name.data) := by
  have hfields : ∀ f ∈ t.cols.map (fun c => c.name.data), ',' ∉ f ∧ '\n' ∉ f := by
    intro f hf
    rw [List.mem_map] at hf
    obtain ⟨c, hcm, rfl⟩ := hf
    exact csvSafe_no_sep (hnames c.name (List.mem_map.mpr ⟨c, hcm, rfl⟩)).2
  refine ⟨?_, ?_, ?_⟩
  · cases hcols : t.cols with
    | nil => exact absurd hcols hc
    | cons c0 rest =>
      unfold headerLine
      rw [hcols, List.map_cons]
      exact joinSep_ne_nil
        ((hnames c0.name (by rw [Table.names, hcols]; simp)).1)
  · intro hnl
    rcases mem_joinSep hnl with h | ⟨f, hf, hcf⟩
    · exact absurd h (by decide)
    · exact (hfields f hf).2 hcf
  · exact joinSep_split _ (by simp [hc]) (fun f hf => (hfields f hf).1)

theorem rowLine_props (t : Table) (hc : t.cols ≠ [])
    (hok : ∀ c ∈ t.cols, colCellsOk c = true) (i : ℕ) :
    '\n' ∉ rowLine t i ∧
    splitOnChar ',' (rowLine t i) = t.cols.map (fun c => colField c i) := by
  have hfields : ∀ f ∈ t.cols.map (fun c => colField c i), ',' ∉ f ∧ '\n' ∉ f := by
    intro f hf
    rw [List.mem_map] at hf
    obtain ⟨c, hcm, rfl⟩ := hf
    exact colField_no_sep (hok c hcm) i
  constructor
  · intro hnl
    rcases mem_joinSep hnl with h | ⟨f, hf, hcf⟩
    · exact absurd h (by decide)
    · exact (hfields f hf).2 hcf
  · exact joinSep_split _ (by simp [hc]) (fun f hf => (hfields f hf).1)

theorem parseCSV_ok (s header : List Char) (dls : List (List Char))
    (hf : (splitOnChar '\n' s).filter (fun l => !l.isEmpty) = header :: dls)
    (hlen : ((dls.map (splitOnChar ',')).all
      (fun r => r.length = (splitOnChar ',' header).length)) = true) :
    parseCSV s = Except.ok ⟨(dls.map (splitOnChar ',')).length,
      buildCols (splitOnChar ',' header) (dls.map (splitOnChar ','))⟩ := by
  unfold parseCSV
  rw [hf]
  show (if ((dls.map (splitOnChar ',')).all
      (fun r => r.length = (splitOnChar ',' header).length)) then
    Except.ok (⟨(dls.map (splitOnChar ',')).length,
      buildCols (splitOnChar ',' header) (dls.map (splitOnChar ','))⟩ : Table)
    else Except.error "ParserError: wrong number of fields") = _
  rw [if_pos hlen]

/-- Witness for C9 (amended) at `T9cex`. -/
theorem transform_ops_deterministic_witness :
    fillMissingNumeric T9cex = fillMissingNumeric T9cex ∧
    selectColumns T9cex ["age"] = selectColumns T9cex ["age"] ∧
    dfObjectAfterFill T9cex = fillMissingNumeric T9cex :=
  ⟨(transform_ops_deterministic T9cex T9cex ["age"] ["age"]).1 rfl,
   (transform_ops_deterministic T9cex T9cex ["age"] ["age"]).2.1 rfl rfl,
   (transform_ops_deterministic T9cex T9cex ["age"] ["age"]).2.2⟩

end FileConv

